import Mathlib

/-!
Verification development for the `smskit` repository.

Part 1: the token-bucket rate limiter (`src/rate_limiter.rs`).

Modelling choices:
* `Instant` values are modelled as whole nanoseconds (`Nat`) on a monotone
  clock; `Instant::duration_since` saturates at zero, which `Nat`
  subtraction matches.
* The `f64` field `refill_rate` always holds `max_tokens / window_seconds`
  (set once in `TokenBucket::new` and never written again), so the bucket
  stores the exact ratio as the pair `rate_num / rate_den`; the `f64`
  expressions `elapsed * refill_rate` (floored) and `1.0 / refill_rate`
  (ceiled) are modelled exactly over `ℚ` and computed by exact integer
  division.  All concrete inputs used in theorems below make these float
  computations exact, where they agree with the rational ones.
* `u32` values are modelled as `Nat` together with the explicit wrap
  `% 2 ^ 32` where the source can overflow (release-mode semantics of
  `self.tokens + tokens_to_add`), and the saturating `as u32` cast of a
  non-negative float floor is modelled by `min … (2 ^ 32 - 1)`.
-/

namespace SmsKit

/-- `u32` modulus. -/
def u32Mod : Nat := 2 ^ 32

/-- Nanoseconds per second: the scale of modelled `Instant`s. -/
def nanosPerSec : Nat := 1000000000

/-- Model of `struct TokenBucket` from `src/rate_limiter.rs`:
`tokens: u32`, `last_refill: Instant`, `max_tokens: u32`, and
`refill_rate: f64` (tokens per second) stored as the exact ratio
`rate_num / rate_den`. -/
structure TokenBucket where
  tokens : Nat
  last_refill : Nat
  max_tokens : Nat
  rate_num : Nat
  rate_den : Nat
  deriving Repr, DecidableEq

namespace TokenBucket

/-- The bucket's refill rate (tokens per second) as a rational. -/
def rateQ (b : TokenBucket) : ℚ := (b.rate_num : ℚ) / (b.rate_den : ℚ)

/-- `TokenBucket::new(max_tokens, window_seconds)`: starts full, with
`refill_rate = max_tokens as f64 / window_seconds as f64`; `last_refill`
is the creation instant (passed explicitly here). -/
def new (max_tokens : Nat) (window_seconds : Nat) (now : Nat) : TokenBucket :=
  { tokens := max_tokens
    last_refill := now
    max_tokens := max_tokens
    rate_num := max_tokens
    rate_den := window_seconds }

/-- `now.duration_since(self.last_refill)` in nanoseconds: saturates at `0`
when `now` is earlier than `last_refill` (as `Nat` subtraction does). -/
def elapsedNanos (b : TokenBucket) (now : Nat) : Nat :=
  now - b.last_refill

/-- The elapsed time in seconds (`as_secs_f64`) as a rational. -/
def elapsedSecs (b : TokenBucket) (now : Nat) : ℚ :=
  (b.elapsedNanos now : ℚ) / (nanosPerSec : ℚ)

/-- `(elapsed * self.refill_rate).floor() as u32` computed exactly:
`⌊(elapsedNanos / 10^9) * (rate_num / rate_den)⌋` is the `Nat` quotient
`elapsedNanos * rate_num / (10^9 * rate_den)`, saturated at `2^32 - 1` by
the cast. -/
def tokensToAdd (b : TokenBucket) (now : Nat) : Nat :=
  min (b.elapsedNanos now * b.rate_num / (nanosPerSec * b.rate_den))
    (u32Mod - 1)

/-- `TokenBucket::refill(&mut self)` with the current instant passed
explicitly: when `elapsed > 0`, add `floor(elapsed * refill_rate)` tokens
(the `u32` addition wraps), clamp at `max_tokens`, and set
`last_refill = now`. -/
def refill (b : TokenBucket) (now : Nat) : TokenBucket :=
  if 0 < b.elapsedNanos now then
    { b with
      tokens := min ((b.tokens + b.tokensToAdd now) % u32Mod) b.max_tokens
      last_refill := now }
  else
    b

/-- `TokenBucket::try_consume(&mut self)`: refill, then take one token if
available.  Returns the success flag and the updated bucket. -/
def try_consume (b : TokenBucket) (now : Nat) : Bool × TokenBucket :=
  let b := b.refill now
  if 0 < b.tokens then
    (true, { b with tokens := b.tokens - 1 })
  else
    (false, b)

end TokenBucket

/-- Model of `struct ProviderRateLimit`. -/
structure ProviderRateLimit where
  max_requests : Nat
  window_seconds : Nat
  deriving Repr, DecidableEq

/-- Model of `struct RateLimitConfig`; `per_provider: HashMap<String, _>`
is modelled as an association list (key lookup by first match). -/
structure RateLimitConfig where
  max_requests : Nat
  window_seconds : Nat
  enabled : Bool
  per_provider : List (String × ProviderRateLimit)
  deriving Repr, DecidableEq

/-- Model of `struct RateLimiter`: the configuration plus the bucket map,
modelled as an association list keyed by the rate-limit key. -/
structure RateLimiter where
  config : RateLimitConfig
  buckets : List (String × TokenBucket)
  deriving Repr, DecidableEq

/-- `RateLimiter::new(config)`. -/
def RateLimiter.mk_new (config : RateLimitConfig) : RateLimiter :=
  { config := config, buckets := [] }

/-- Model of `enum RateLimitResult`; `retry_after: Duration` is modelled as
a whole number of seconds (the source always builds it from
`Duration::from_secs_f64` of a ceiled value). -/
inductive RateLimitResult where
  | Allowed : RateLimitResult
  | Limited (retry_after : Nat) : RateLimitResult
  deriving Repr, DecidableEq

/-- Association-list lookup, modelling `HashMap::get`. -/
def alistGet {α : Type} (l : List (String × α)) (k : String) : Option α :=
  match l with
  | [] => none
  | (k', v) :: rest => if k' = k then some v else alistGet rest k

/-- Association-list insert-or-replace, modelling `HashMap`-entry update. -/
def alistPut {α : Type} (l : List (String × α)) (k : String) (v : α) :
    List (String × α) :=
  match l with
  | [] => [(k, v)]
  | (k', v') :: rest =>
      if k' = k then (k', v) :: rest else (k', v') :: alistPut rest k v

namespace RateLimiter

/-- `RateLimiter::get_provider_limit`: take the substring of `key` before
the first `:` (`key.split(':').next()` always yields this prefix, the whole
key when no `:` occurs) and look it up in `config.per_provider`. -/
def get_provider_limit (rl : RateLimiter) (key : String) :
    Option ProviderRateLimit :=
  let provider := String.mk (key.data.takeWhile (fun c => c ≠ ':'))
  alistGet rl.config.per_provider provider

/-- The `(max_requests, window_seconds)` pair `check_rate_limit` selects
for a key: the per-provider override when present, else the global
configuration. -/
def effective_limits (rl : RateLimiter) (key : String) : Nat × Nat :=
  match rl.get_provider_limit key with
  | some provider_limit =>
      (provider_limit.max_requests, provider_limit.window_seconds)
  | none => (rl.config.max_requests, rl.config.window_seconds)

/-- `RateLimiter::calculate_retry_after(bucket)`:
`Duration::from_secs_f64((1.0 / bucket.refill_rate).ceil())`, in seconds;
`⌈rate_den / rate_num⌉` computed by exact integer arithmetic (`0` in the
degenerate `rate_num = 0` case, where the source float would be infinite;
never reached in the theorems below). -/
def calculate_retry_after (b : TokenBucket) : Nat :=
  (b.rate_den + b.rate_num - 1) / b.rate_num

/-- `RateLimiter::check_rate_limit(&self, key)` with the current instant
passed explicitly.  Returns the result and the limiter with its updated
bucket map.  Mirrors the source: early return when disabled; select the
per-provider or global limit; `entry(key).or_insert_with(TokenBucket::new)`;
`try_consume`; on failure compute `retry_after` from the refilled bucket. -/
def check_rate_limit (rl : RateLimiter) (key : String) (now : Nat) :
    RateLimitResult × RateLimiter :=
  if ¬rl.config.enabled then
    (RateLimitResult.Allowed, rl)
  else
    let limits := rl.effective_limits key
    let bucket : TokenBucket :=
      match alistGet rl.buckets key with
      | some b => b
      | none => TokenBucket.new limits.1 limits.2 now
    let res := bucket.try_consume now
    let rl' : RateLimiter :=
      { rl with buckets := alistPut rl.buckets key res.2 }
    if res.1 then
      (RateLimitResult.Allowed, rl')
    else
      (RateLimitResult.Limited (calculate_retry_after res.2), rl')

/-- Run a sequence of `check_rate_limit` calls (all at instant `now`,
oldest first), collecting the results in order. -/
def run_checks (rl : RateLimiter) (keys : List String) (now : Nat) :
    List RateLimitResult × RateLimiter :=
  match keys with
  | [] => ([], rl)
  | k :: rest =>
      let step := rl.check_rate_limit k now
      let tail := step.2.run_checks rest now
      (step.1 :: tail.1, tail.2)

end RateLimiter

end SmsKit

namespace SmsKit

@[simp]
lemma TokenBucket.refill_max_tokens (b : TokenBucket) (now : Nat) :
    (b.refill now).max_tokens = b.max_tokens := by
  unfold TokenBucket.refill; split <;> rfl

@[simp]
lemma TokenBucket.refill_rate_num (b : TokenBucket) (now : Nat) :
    (b.refill now).rate_num = b.rate_num := by
  unfold TokenBucket.refill; split <;> rfl

@[simp]
lemma TokenBucket.refill_rate_den (b : TokenBucket) (now : Nat) :
    (b.refill now).rate_den = b.rate_den := by
  unfold TokenBucket.refill; split <;> rfl

lemma TokenBucket.refill_eq_self (b : TokenBucket) (now : Nat)
    (h : now ≤ b.last_refill) : b.refill now = b := by
  unfold TokenBucket.refill
  simp [TokenBucket.elapsedNanos, Nat.sub_eq_zero_of_le h]

lemma alistGet_alistPut {α : Type} (l : List (String × α)) (k k' : String)
    (v : α) :
    alistGet (alistPut l k v) k' = if k = k' then some v else alistGet l k' := by
  induction l with
  | nil => by_cases h : k = k' <;> simp [alistPut, alistGet, h]
  | cons hd tl ih =>
      obtain ⟨a, b⟩ := hd
      by_cases hak : a = k
      · subst hak
        by_cases hk' : a = k' <;> simp [alistPut, alistGet, hk']
      · by_cases hak' : a = k'
        · subst hak'
          have hk : ¬k = a := fun h => hak h.symm
          simp [alistPut, alistGet, hak, hk]
        · simp [alistPut, alistGet, hak, hak', ih]

lemma RateLimiter.check_existing (rl : RateLimiter) (key : String)
    (now : Nat) (b : TokenBucket)
    (hen : rl.config.enabled = true) (hb : alistGet rl.buckets key = some b) :
    rl.check_rate_limit key now =
      (if 0 < (b.refill now).tokens
       then (RateLimitResult.Allowed,
             ⟨rl.config,
              alistPut rl.buckets key
                ({ b.refill now with tokens := (b.refill now).tokens - 1 })⟩)
       else (RateLimitResult.Limited
               (RateLimiter.calculate_retry_after (b.refill now)),
             ⟨rl.config, alistPut rl.buckets key (b.refill now)⟩)) := by
  unfold RateLimiter.check_rate_limit TokenBucket.try_consume
  simp only [hen, hb]
  by_cases h : 0 < (b.refill now).tokens <;> simp [h]

lemma RateLimiter.check_fresh (rl : RateLimiter) (key : String) (now : Nat)
    (hen : rl.config.enabled = true) (hb : alistGet rl.buckets key = none) :
    rl.check_rate_limit key now =
      (let res := (TokenBucket.new (rl.effective_limits key).1
          (rl.effective_limits key).2 now).try_consume now
       ((if res.1 then RateLimitResult.Allowed
         else RateLimitResult.Limited
           (RateLimiter.calculate_retry_after res.2)),
        { rl with buckets := alistPut rl.buckets key res.2 })) := by
  unfold RateLimiter.check_rate_limit
  simp only [hen, hb]
  by_cases h : ((TokenBucket.new (rl.effective_limits key).1
      (rl.effective_limits key).2 now).try_consume now).1 <;> simp [h]

end SmsKit

namespace SmsKit

lemma RateLimiter.run_checks_append (rl : RateLimiter) (l1 l2 : List String)
    (now : Nat) :
    rl.run_checks (l1 ++ l2) now
      = (((rl.run_checks l1 now).1
            ++ ((rl.run_checks l1 now).2.run_checks l2 now).1),
         ((rl.run_checks l1 now).2.run_checks l2 now).2) := by
  induction l1 generalizing rl with
  | nil => simp [RateLimiter.run_checks]
  | cons k rest ih => simp [RateLimiter.run_checks, ih]

lemma RateLimiter.run_consume (key : String) (now N num den : Nat) :
    ∀ (t : Nat) (rl : RateLimiter),
      rl.config.enabled = true →
      alistGet rl.buckets key = some ⟨t, now, N, num, den⟩ →
      (rl.run_checks (List.replicate t key) now).1
          = List.replicate t RateLimitResult.Allowed
        ∧ (rl.run_checks (List.replicate t key) now).2.config = rl.config
        ∧ alistGet (rl.run_checks (List.replicate t key) now).2.buckets key
            = some ⟨0, now, N, num, den⟩ := by
  intro t
  induction t with
  | zero =>
      intro rl hen hb
      simpa [RateLimiter.run_checks] using hb
  | succ t ih =>
      intro rl hen hb
      have href : (TokenBucket.mk (t + 1) now N num den).refill now
          = TokenBucket.mk (t + 1) now N num den :=
        TokenBucket.refill_eq_self _ _ le_rfl
      have hchk := RateLimiter.check_existing rl key now ⟨t + 1, now, N, num, den⟩
        hen hb
      rw [href] at hchk
      simp only [Nat.succ_sub_one, Nat.zero_lt_succ, if_pos] at hchk
      have hget : alistGet (alistPut rl.buckets key
            (TokenBucket.mk t now N num den)) key
          = some (TokenBucket.mk t now N num den) := by
        simp [alistGet_alistPut]
      have ihres := ih ⟨rl.config, alistPut rl.buckets key
          (TokenBucket.mk t now N num den)⟩ hen hget
      simp only [List.replicate_succ, RateLimiter.run_checks, hchk]
      exact ⟨by simp [ihres.1], ihres.2.1, ihres.2.2⟩

/-- C7: when the limiter is configured disabled, every check returns
`Allowed` (for any keys, any number of calls) and the limiter state —
in particular the bucket map — is left completely unchanged. -/
theorem rate_limit_disabled_allows_all (rl : RateLimiter)
    (keys : List String) (now : Nat)
    (hdis : rl.config.enabled = false) :
    rl.run_checks keys now
      = (List.replicate keys.length RateLimitResult.Allowed, rl) := by
  induction keys with
  | nil => simp [RateLimiter.run_checks]
  | cons k rest ih =>
      simp [RateLimiter.run_checks, RateLimiter.check_rate_limit, hdis, ih,
        List.replicate_succ]

/-- Witness for `rate_limit_disabled_allows_all`: a concrete disabled
limiter with three checks. -/
theorem rate_limit_disabled_allows_all_witness :
    (RateLimiter.mk_new ⟨1, 1, false, []⟩).run_checks ["a", "a", "b"] 0
      = ([RateLimitResult.Allowed, RateLimitResult.Allowed,
          RateLimitResult.Allowed], RateLimiter.mk_new ⟨1, 1, false, []⟩) :=
  rate_limit_disabled_allows_all _ _ _ rfl

end SmsKit

namespace SmsKit

/-- C3: on a fresh limiter whose effective limit for `key` is `N ≥ 1`, the
first `N` consecutive checks with no elapsed time all return `Allowed` and
the `(N+1)`th returns `Limited`. -/
theorem rate_limit_fresh_key_burst (cfg : RateLimitConfig) (key : String)
    (now N : Nat) (hen : cfg.enabled = true) (hN : 1 ≤ N)
    (hmax : ((RateLimiter.mk_new cfg).effective_limits key).1 = N) :
    ∃ r : Nat,
      ((RateLimiter.mk_new cfg).run_checks (List.replicate (N + 1) key) now).1
        = List.replicate N RateLimitResult.Allowed
          ++ [RateLimitResult.Limited r] := by
  obtain ⟨M, rfl⟩ : ∃ M, N = M + 1 := ⟨N - 1, (Nat.succ_pred_eq_of_pos hN).symm⟩
  set rl0 := RateLimiter.mk_new cfg with hrl0
  obtain ⟨w, hw⟩ : ∃ w, (rl0.effective_limits key).2 = w := ⟨_, rfl⟩
  -- the first check creates a full bucket and consumes one token
  have hfresh : alistGet rl0.buckets key = none := rfl
  have hchk1 := RateLimiter.check_fresh rl0 key now hen hfresh
  have hnew : TokenBucket.new (rl0.effective_limits key).1
      (rl0.effective_limits key).2 now
      = TokenBucket.mk (M + 1) now (M + 1) (M + 1) w := by
    rw [hmax, hw]; rfl
  rw [hnew] at hchk1
  have htc : (TokenBucket.mk (M + 1) now (M + 1) (M + 1) w).try_consume now
      = (true, TokenBucket.mk M now (M + 1) (M + 1) w) := by
    unfold TokenBucket.try_consume
    rw [TokenBucket.refill_eq_self _ _ le_rfl]
    simp
  rw [htc] at hchk1
  simp only [if_pos] at hchk1
  -- state after the first check
  have hget1 : alistGet (alistPut rl0.buckets key
        (TokenBucket.mk M now (M + 1) (M + 1) w)) key
      = some (TokenBucket.mk M now (M + 1) (M + 1) w) := by
    simp [alistGet_alistPut]
  have hrun := RateLimiter.run_consume key now (M + 1) (M + 1) w M
    ⟨rl0.config, alistPut rl0.buckets key
      (TokenBucket.mk M now (M + 1) (M + 1) w)⟩ hen hget1
  -- the final check on the empty bucket is limited
  set rl2 := (RateLimiter.run_checks ⟨rl0.config, alistPut rl0.buckets key
      (TokenBucket.mk M now (M + 1) (M + 1) w)⟩ (List.replicate M key) now).2
    with hrl2
  have hchk3 := RateLimiter.check_existing rl2 key now
    (TokenBucket.mk 0 now (M + 1) (M + 1) w) (by rw [hrun.2.1]; exact hen)
    hrun.2.2
  rw [TokenBucket.refill_eq_self _ _ le_rfl] at hchk3
  simp only [lt_irrefl, if_neg, not_lt, Nat.le_refl] at hchk3
  refine ⟨RateLimiter.calculate_retry_after
    (TokenBucket.mk 0 now (M + 1) (M + 1) w), ?_⟩
  have hsplit : List.replicate (M + 1 + 1) key
      = key :: (List.replicate M key ++ [key]) := by
    rw [List.replicate_succ, List.replicate_succ']
  rw [hsplit]
  simp only [RateLimiter.run_checks, hchk1]
  rw [RateLimiter.run_checks_append]
  simp [hrun.1, hchk3, List.replicate_succ, RateLimiter.run_checks]

/-- Witness for `rate_limit_fresh_key_burst`: global limit `2`, three
checks on a fresh key. -/
theorem rate_limit_fresh_key_burst_witness :
    ∃ r : Nat,
      ((RateLimiter.mk_new ⟨2, 1, true, []⟩).run_checks
          (List.replicate 3 "k") 0).1
        = List.replicate 2 RateLimitResult.Allowed
          ++ [RateLimitResult.Limited r] :=
  rate_limit_fresh_key_burst ⟨2, 1, true, []⟩ "k" 0 2 rfl (by decide) rfl

end SmsKit

namespace SmsKit

lemma TokenBucket.tokensToAdd_eq (b : TokenBucket) (now : Nat) :
    b.tokensToAdd now
      = min (Int.toNat ⌊b.elapsedSecs now * b.rateQ⌋) (u32Mod - 1) := by
  unfold TokenBucket.tokensToAdd TokenBucket.elapsedSecs TokenBucket.rateQ
  have h : (b.elapsedNanos now : ℚ) / (nanosPerSec : ℚ)
      * ((b.rate_num : ℚ) / (b.rate_den : ℚ))
      = ((b.elapsedNanos now * b.rate_num : ℕ) : ℚ)
        / ((nanosPerSec * b.rate_den : ℕ) : ℚ) := by
    push_cast
    rw [div_mul_div_comm]
  rw [h, Rat.floor_natCast_div_natCast, ← Int.natCast_div, Int.toNat_natCast]

/-- C2 counterexample: a bucket with `refill_rate = 1` token/second checked
after half a second adds zero tokens, yet `last_refill` is advanced (the
source advances it whenever `elapsed > 0`, not only when `added > 0`); as a
consequence two half-second refills grant no token while a single
one-second refill grants one — truncation drift is real. -/
theorem rate_limit_refill_drift_counterexample :
    (TokenBucket.mk 0 0 10 1 1).tokensToAdd 500000000 = 0
    ∧ ((TokenBucket.mk 0 0 10 1 1).refill 500000000).tokens
        = (TokenBucket.mk 0 0 10 1 1).tokens
    ∧ ((TokenBucket.mk 0 0 10 1 1).refill 500000000).last_refill
        ≠ (TokenBucket.mk 0 0 10 1 1).last_refill
    ∧ (((TokenBucket.mk 0 0 10 1 1).refill 500000000).refill
          1000000000).tokens = 0
    ∧ ((TokenBucket.mk 0 0 10 1 1).refill 1000000000).tokens = 1 := by
  decide

/-- C2 (amended): on every check the bucket is lazily refilled by
`added = floor(elapsed_seconds * refill_rate)` tokens clamped at
`max_tokens`, and `last_refill` is advanced to `now` whenever
`elapsed > 0` — including checks where `added = 0` — so repeated
sub-second checks can lose fractional accrual to truncation (the
hypothesis rules out `u32` overflow of `tokens + added`). -/
theorem rate_limit_refill_amended (b : TokenBucket) (now : Nat)
    (hof : b.tokens + Int.toNat ⌊b.elapsedSecs now * b.rateQ⌋ < u32Mod) :
    (0 < b.elapsedNanos now →
      (b.refill now).tokens
        = min (b.tokens + Int.toNat ⌊b.elapsedSecs now * b.rateQ⌋)
            b.max_tokens
      ∧ (b.refill now).last_refill = now)
    ∧ (b.elapsedNanos now = 0 → b.refill now = b) := by
  constructor
  · intro h
    unfold TokenBucket.refill
    rw [if_pos h, TokenBucket.tokensToAdd_eq]
    have hx1 : min (Int.toNat ⌊b.elapsedSecs now * b.rateQ⌋) (u32Mod - 1)
        = Int.toNat ⌊b.elapsedSecs now * b.rateQ⌋ :=
      Nat.min_eq_left (by omega)
    rw [hx1, Nat.mod_eq_of_lt hof]
    exact ⟨rfl, rfl⟩
  · intro h
    unfold TokenBucket.refill
    simp [h]

/-- Witness for `rate_limit_refill_amended`: the concrete half-second
check of the counterexample satisfies the no-overflow hypothesis. -/
theorem rate_limit_refill_amended_witness :
    ((TokenBucket.mk 0 0 10 1 1).tokens
        + Int.toNat ⌊(TokenBucket.mk 0 0 10 1 1).elapsedSecs 500000000
            * (TokenBucket.mk 0 0 10 1 1).rateQ⌋ < u32Mod)
    ∧ ((0 < (TokenBucket.mk 0 0 10 1 1).elapsedNanos 500000000 →
        ((TokenBucket.mk 0 0 10 1 1).refill 500000000).tokens
          = min ((TokenBucket.mk 0 0 10 1 1).tokens
              + Int.toNat ⌊(TokenBucket.mk 0 0 10 1 1).elapsedSecs 500000000
                  * (TokenBucket.mk 0 0 10 1 1).rateQ⌋)
              (TokenBucket.mk 0 0 10 1 1).max_tokens
        ∧ ((TokenBucket.mk 0 0 10 1 1).refill 500000000).last_refill
            = 500000000)
      ∧ ((TokenBucket.mk 0 0 10 1 1).elapsedNanos 500000000 = 0 →
        (TokenBucket.mk 0 0 10 1 1).refill 500000000
          = TokenBucket.mk 0 0 10 1 1)) := by
  have hmin : min (Int.toNat ⌊(TokenBucket.mk 0 0 10 1 1).elapsedSecs
      500000000 * (TokenBucket.mk 0 0 10 1 1).rateQ⌋) (u32Mod - 1) = 0 := by
    rw [← TokenBucket.tokensToAdd_eq]
    decide
  have hof : (TokenBucket.mk 0 0 10 1 1).tokens
      + Int.toNat ⌊(TokenBucket.mk 0 0 10 1 1).elapsedSecs 500000000
          * (TokenBucket.mk 0 0 10 1 1).rateQ⌋ < u32Mod := by
    have : (u32Mod - 1) ≠ 0 := by decide
    simp only [TokenBucket.tokens]
    omega
  exact ⟨hof, rate_limit_refill_amended _ _ hof⟩

end SmsKit

namespace SmsKit

/-- C6: on first use of a key (enabled limiter, no bucket yet) the check
behaves exactly as a freshly created bucket — full at `max_tokens`, sized
by the per-provider override selected by the prefix of the key before the
first `:` when configured, else by the global limit (`effective_limits`) —
and in particular, with global limit 5 and a twilio override of 10, ten
`twilio:x` checks are all `Allowed` while the sixth `plivo:x` check is
`Limited`. -/
theorem rate_limit_first_use_limits :
    (∀ (rl : RateLimiter) (key : String) (now : Nat),
      rl.config.enabled = true →
      alistGet rl.buckets key = none →
      ((rl.check_rate_limit key now).1 = RateLimitResult.Allowed
          ↔ ((TokenBucket.new (rl.effective_limits key).1
              (rl.effective_limits key).2 now).try_consume now).1 = true)
        ∧ alistGet (rl.check_rate_limit key now).2.buckets key
            = some ((TokenBucket.new (rl.effective_limits key).1
                (rl.effective_limits key).2 now).try_consume now).2
        ∧ (TokenBucket.new (rl.effective_limits key).1
              (rl.effective_limits key).2 now).tokens
            = (rl.effective_limits key).1)
    ∧ ((RateLimiter.mk_new ⟨5, 60, true, [("twilio", ⟨10, 60⟩)]⟩).run_checks
          (List.replicate 10 "twilio:x" ++ List.replicate 6 "plivo:x") 0).1
        = List.replicate 15 RateLimitResult.Allowed
          ++ [RateLimitResult.Limited 12] := by
  constructor
  · intro rl key now hen hfresh
    rw [RateLimiter.check_fresh rl key now hen hfresh]
    by_cases h : ((TokenBucket.new (rl.effective_limits key).1
        (rl.effective_limits key).2 now).try_consume now).1 <;>
      simp [h, alistGet_alistPut, TokenBucket.new]
  · decide

/-- Witness for `rate_limit_first_use_limits`: its first-use part applied
to the concrete limiter of its second part on the fresh key `twilio:x`. -/
theorem rate_limit_first_use_limits_witness :
    ((RateLimiter.mk_new
          ⟨5, 60, true, [("twilio", ⟨10, 60⟩)]⟩).check_rate_limit
        "twilio:x" 0).1 = RateLimitResult.Allowed
      ↔ ((TokenBucket.new
          ((RateLimiter.mk_new
              ⟨5, 60, true, [("twilio", ⟨10, 60⟩)]⟩).effective_limits
            "twilio:x").1
          ((RateLimiter.mk_new
              ⟨5, 60, true, [("twilio", ⟨10, 60⟩)]⟩).effective_limits
            "twilio:x").2 0).try_consume 0).1 = true :=
  (rate_limit_first_use_limits.1
    (RateLimiter.mk_new ⟨5, 60, true, [("twilio", ⟨10, 60⟩)]⟩)
    "twilio:x" 0 rfl rfl).1

lemma retry_after_eq_ceil (b : TokenBucket) (h : 0 < b.rate_num) :
    RateLimiter.calculate_retry_after b = Int.toNat ⌈(1 : ℚ) / b.rateQ⌉ := by
  unfold RateLimiter.calculate_retry_after TokenBucket.rateQ
  rw [one_div_div]
  have hn' : (0 : ℚ) < (b.rate_num : ℚ) := by exact_mod_cast h
  obtain ⟨q, hq⟩ : ∃ q, (b.rate_den + b.rate_num - 1) / b.rate_num = q :=
    ⟨_, rfl⟩
  have h' := Nat.div_add_mod (b.rate_den + b.rate_num - 1) b.rate_num
  rw [hq] at h'
  have hr : (b.rate_den + b.rate_num - 1) % b.rate_num < b.rate_num :=
    Nat.mod_lt _ h
  have key1 : b.rate_num * q < b.rate_den + b.rate_num := by omega
  have key2 : b.rate_den ≤ b.rate_num * q := by omega
  have hz : ⌈((b.rate_den : ℚ)) / ((b.rate_num : ℚ))⌉ = (q : ℤ) := by
    rw [Int.ceil_eq_iff]
    constructor
    · rw [lt_div_iff hn']
      have hk : ((b.rate_num * q : ℕ) : ℚ)
          < (b.rate_den : ℚ) + (b.rate_num : ℚ) := by exact_mod_cast key1
      push_cast at hk ⊢
      nlinarith [hk]
    · rw [div_le_iff hn']
      have hk : (b.rate_den : ℚ) ≤ ((b.rate_num * q : ℕ) : ℚ) := by
        exact_mod_cast key2
      push_cast at hk ⊢
      nlinarith [hk]
  rw [hq, hz, Int.toNat_natCast]

end SmsKit

namespace SmsKit

lemma calculate_retry_after_refill (b : TokenBucket) (now : Nat) :
    RateLimiter.calculate_retry_after (b.refill now)
      = RateLimiter.calculate_retry_after b := by
  unfold RateLimiter.calculate_retry_after
  rw [TokenBucket.refill_rate_num, TokenBucket.refill_rate_den]

/-- C8: on an enabled limiter, when the check of an existing bucket finds it
empty after the refill it returns `Limited` carrying
`retry_after = ⌈1 / refill_rate⌉` seconds; when tokens remain after refill
it decrements exactly one token and returns `Allowed`; and a bucket built
by `TokenBucket::new` has `refill_rate = max_tokens / window_seconds` as an
exact rational. -/
theorem rate_limit_retry_after (rl : RateLimiter) (key : String) (now : Nat)
    (b : TokenBucket) (hen : rl.config.enabled = true)
    (hb : alistGet rl.buckets key = some b) (hnum : 0 < b.rate_num) :
    ((b.refill now).tokens = 0 →
      (rl.check_rate_limit key now).1
        = RateLimitResult.Limited (Int.toNat ⌈(1 : ℚ) / b.rateQ⌉))
    ∧ (0 < (b.refill now).tokens →
      (rl.check_rate_limit key now).1 = RateLimitResult.Allowed
      ∧ alistGet (rl.check_rate_limit key now).2.buckets key
          = some ({ b.refill now with tokens := (b.refill now).tokens - 1 }))
    ∧ (∀ m w t : Nat, (TokenBucket.new m w t).rateQ = (m : ℚ) / (w : ℚ)) := by
  refine ⟨?_, ?_, fun m w t => rfl⟩
  · intro h0
    rw [RateLimiter.check_existing rl key now b hen hb]
    rw [if_neg (by omega), calculate_retry_after_refill,
      retry_after_eq_ceil b hnum]
  · intro hpos
    rw [RateLimiter.check_existing rl key now b hen hb]
    rw [if_pos hpos]
    exact ⟨rfl, by simp [alistGet_alistPut]⟩

/-- Witness for `rate_limit_retry_after`: a limiter holding one empty
bucket with rate `5/60`, checked at its own `last_refill` instant. -/
theorem rate_limit_retry_after_witness :
    ((RateLimiter.mk ⟨5, 60, true, []⟩
          [("k", TokenBucket.mk 0 7 5 5 60)]).config.enabled = true)
    ∧ (((TokenBucket.mk 0 7 5 5 60).refill 7).tokens = 0 →
        ((RateLimiter.mk ⟨5, 60, true, []⟩
            [("k", TokenBucket.mk 0 7 5 5 60)]).check_rate_limit "k" 7).1
          = RateLimitResult.Limited
              (Int.toNat ⌈(1 : ℚ) / (TokenBucket.mk 0 7 5 5 60).rateQ⌉)) :=
  ⟨rfl,
   (rate_limit_retry_after (RateLimiter.mk ⟨5, 60, true, []⟩
      [("k", TokenBucket.mk 0 7 5 5 60)]) "k" 7 (TokenBucket.mk 0 7 5 5 60)
      rfl (by decide) (by decide)).1⟩

/-- Invariant of a single bucket: the token count never exceeds the
configured maximum (it is nonnegative by the `Nat` model of `u32`). -/
def TokenBucket.wf (b : TokenBucket) : Prop := b.tokens ≤ b.max_tokens

/-- Invariant of a limiter: every bucket in the map satisfies
`TokenBucket.wf`. -/
def RateLimiter.wf (rl : RateLimiter) : Prop :=
  ∀ k bk, alistGet rl.buckets k = some bk → bk.wf

lemma TokenBucket.refill_wf (b : TokenBucket) (now : Nat) (hb : b.wf) :
    (b.refill now).wf := by
  unfold TokenBucket.refill
  split
  · exact Nat.min_le_right _ _
  · exact hb

lemma TokenBucket.new_wf (m w t : Nat) : (TokenBucket.new m w t).wf :=
  Nat.le_refl m

lemma TokenBucket.try_consume_eq (b : TokenBucket) (now : Nat) :
    b.try_consume now
      = if 0 < (b.refill now).tokens
        then (true,
          { b.refill now with tokens := (b.refill now).tokens - 1 })
        else (false, b.refill now) := rfl

lemma TokenBucket.try_consume_wf (b : TokenBucket) (now : Nat) (hb : b.wf) :
    ((b.try_consume now).2).wf := by
  rw [TokenBucket.try_consume_eq]
  have hr := b.refill_wf now hb
  split
  · exact Nat.le_trans (Nat.sub_le _ _) hr
  · exact hr

lemma TokenBucket.refill_last_mono (b : TokenBucket) (now : Nat) :
    b.last_refill ≤ (b.refill now).last_refill := by
  unfold TokenBucket.refill
  split
  · next hpos =>
      unfold TokenBucket.elapsedNanos at hpos
      show b.last_refill ≤ now
      omega
  · exact Nat.le_refl _

lemma RateLimiter.check_wf (rl : RateLimiter) (key : String) (now : Nat)
    (hwf : rl.wf) : ((rl.check_rate_limit key now).2).wf := by
  by_cases hen : rl.config.enabled
  · cases hcase : alistGet rl.buckets key with
    | some b0 =>
        rw [RateLimiter.check_existing rl key now b0 hen hcase]
        have hr := b0.refill_wf now (hwf key b0 hcase)
        by_cases hpos : 0 < (b0.refill now).tokens
        · rw [if_pos hpos]
          intro k bk hget
          simp only [alistGet_alistPut] at hget
          split at hget
          · cases hget
            exact Nat.le_trans (Nat.sub_le _ _) hr
          · exact hwf k bk hget
        · rw [if_neg hpos]
          intro k bk hget
          simp only [alistGet_alistPut] at hget
          split at hget
          · cases hget
            exact hr
          · exact hwf k bk hget
    | none =>
        rw [RateLimiter.check_fresh rl key now hen hcase]
        intro k bk hget
        simp only [alistGet_alistPut] at hget
        split at hget
        · cases hget
          exact TokenBucket.try_consume_wf _ _ (TokenBucket.new_wf _ _ _)
        · exact hwf k bk hget
  · simp only [RateLimiter.check_rate_limit, hen]
    simpa using hwf

/-- C9: the bucket invariant `0 ≤ tokens ≤ max_tokens` holds at every
observation point — for a fresh bucket, immediately after the
refill-and-add step at an arbitrarily distant instant, after a consume —
and is preserved by every sequence of checks; `refill` never decreases
`last_refill`.  (The lower bound `0 ≤ tokens` is the `Nat` model of the
unsigned `u32` counter.) -/
theorem rate_limit_bucket_invariant :
    (∀ m w t : Nat, (TokenBucket.new m w t).wf)
    ∧ (∀ (b : TokenBucket) (now : Nat), b.wf → (b.refill now).wf)
    ∧ (∀ (b : TokenBucket) (now : Nat),
        b.last_refill ≤ (b.refill now).last_refill)
    ∧ (∀ (b : TokenBucket) (now : Nat), b.wf → ((b.try_consume now).2).wf)
    ∧ (∀ (rl : RateLimiter) (keys : List String) (now : Nat),
        rl.wf → ((rl.run_checks keys now).2).wf) := by
  refine ⟨TokenBucket.new_wf, TokenBucket.refill_wf,
    TokenBucket.refill_last_mono, TokenBucket.try_consume_wf, ?_⟩
  intro rl keys now hwf
  induction keys generalizing rl with
  | nil => exact hwf
  | cons k rest ih =>
      exact ih _ (rl.check_wf k now hwf)

/-- Witness for `rate_limit_bucket_invariant`: the invariant holds after a
concrete three-check run from an empty bucket map. -/
theorem rate_limit_bucket_invariant_witness :
    (((RateLimiter.mk_new ⟨2, 1, true, []⟩).run_checks ["a", "a", "a"] 0).2).wf
    ∧ ((TokenBucket.mk 1 0 2 2 1).refill 500000000).wf :=
  ⟨rate_limit_bucket_invariant.2.2.2.2 _ ["a", "a", "a"] 0
      (fun _ _ h => nomatch h),
   rate_limit_bucket_invariant.2.1 (TokenBucket.mk 1 0 2 2 1) 500000000
      (show (1 : Nat) ≤ 2 by decide)⟩

end SmsKit

/-!
Part 2: the normalized message model and webhook dispatch pipeline
(`crates/sms-core/src/lib.rs` and `crates/sms-web-generic/src/lib.rs`).

JSON is modelled by an explicit tree `Json` (numbers restricted to the
integers the repository's serializer emits; floating-point numbers in
`raw` payloads are outside the model).  `renderJson` mirrors
`serde_json::to_string` (compact form, serde's string-escaping rules) and
`jsonParse` mirrors strict JSON deserialization (`serde_json::from_str`):
escapes `\" \\ \/ \b \f \n \r \t \uXXXX`, raw control characters rejected
inside strings, whitespace allowed between tokens.
-/

namespace SmsKit

/-- Model of a `serde_json::Value` tree (integer numbers only); an object
is its ordered member list. -/
inductive Json where
  | null : Json
  | bool (b : Bool) : Json
  | int (n : Int) : Json
  | str (s : String) : Json
  | arr (elems : List Json) : Json
  | obj (members : List (String × Json)) : Json
  deriving Repr, Inhabited

/-- An opening curly brace character. -/
def lbrace : Char := Char.ofNat 123

/-- A closing curly brace character. -/
def rbrace : Char := Char.ofNat 125

/-- The decimal digit character for `n < 10`. -/
def digitChar (n : Nat) : Char := Char.ofNat (48 + n)

/-- Lower-case hexadecimal digit character for `n < 16` (serde uses
lower-case hex in `\u00XX` escapes). -/
def hexChar (n : Nat) : Char :=
  if n < 10 then Char.ofNat (48 + n) else Char.ofNat (87 + n)

/-- Decimal digits of `n`, most significant first. -/
def natDigits (n : Nat) : List Char :=
  if _h : n < 10 then [digitChar n]
  else natDigits (n / 10) ++ [digitChar (n % 10)]
  termination_by n
  decreasing_by exact Nat.div_lt_self (by omega) (by omega)

/-- Decimal rendering of an integer. -/
def intChars (n : Int) : List Char :=
  if n < 0 then '-' :: natDigits n.natAbs else natDigits n.toNat

/-- serde_json's escaping of one character inside a JSON string literal:
`"`, `\`, and the control characters (short escapes for `\b \t \n \f \r`,
`\u00XX` for the rest); every other character is emitted as itself. -/
def escapeChar (c : Char) : List Char :=
  if c = '"' then ['\\', '"']
  else if c = '\\' then ['\\', '\\']
  else if c = '\n' then ['\\', 'n']
  else if c = '\r' then ['\\', 'r']
  else if c = '\t' then ['\\', 't']
  else if c = Char.ofNat 8 then ['\\', 'b']
  else if c = Char.ofNat 12 then ['\\', 'f']
  else if c.toNat < 32 then
    ['\\', 'u', '0', '0', hexChar (c.toNat / 16), hexChar (c.toNat % 16)]
  else [c]

/-- serde_json's escaping of a whole string body. -/
def escapeString (s : List Char) : List Char :=
  (s.map escapeChar).join

mutual

/-- `serde_json::to_string` (compact rendering) of a JSON tree. -/
def renderJson : Json → List Char
  | .null => "null".data
  | .bool true => "true".data
  | .bool false => "false".data
  | .int n => intChars n
  | .str s => '"' :: (escapeString s.data ++ ['"'])
  | .arr xs => '[' :: (renderElems xs ++ [']'])
  | .obj ms => lbrace :: (renderMembers ms ++ [rbrace])

/-- Comma-separated rendering of array elements. -/
def renderElems : List Json → List Char
  | [] => []
  | [x] => renderJson x
  | x :: xs => renderJson x ++ ',' :: renderElems xs

/-- Comma-separated rendering of object members (`"key":value`). -/
def renderMembers : List (String × Json) → List Char
  | [] => []
  | [(k, v)] => '"' :: (escapeString k.data ++ ['"', ':'] ++ renderJson v)
  | (k, v) :: ms =>
      '"' :: (escapeString k.data ++ ['"', ':'] ++ renderJson v)
        ++ ',' :: renderMembers ms

end

/-- JSON insignificant whitespace. -/
def isWsC (c : Char) : Bool :=
  c = ' ' || c = '\t' || c = '\n' || c = '\r'

/-- Drop leading JSON whitespace. -/
def skipWs : List Char → List Char
  | [] => []
  | c :: cs => if isWsC c then skipWs cs else c :: cs

/-- ASCII decimal digit test. -/
def isDigitC (c : Char) : Bool := 48 ≤ c.toNat && c.toNat ≤ 57

/-- Consume leading decimal digits into an accumulator. -/
def parseDigits : List Char → Nat → Nat × List Char
  | [], acc => (acc, [])
  | c :: cs, acc =>
      if isDigitC c then parseDigits cs (acc * 10 + (c.toNat - 48))
      else (acc, c :: cs)

/-- The character denoted by a one-character JSON escape, if valid. -/
def unescapeChar (c : Char) : Option Char :=
  if c = '"' then some '"'
  else if c = '\\' then some '\\'
  else if c = '/' then some '/'
  else if c = 'n' then some '\n'
  else if c = 't' then some '\t'
  else if c = 'r' then some '\r'
  else if c = 'b' then some (Char.ofNat 8)
  else if c = 'f' then some (Char.ofNat 12)
  else none

/-- Value of a hexadecimal digit character, if valid. -/
def hexVal (c : Char) : Option Nat :=
  if 48 ≤ c.toNat && c.toNat ≤ 57 then some (c.toNat - 48)
  else if 97 ≤ c.toNat && c.toNat ≤ 102 then some (c.toNat - 87)
  else if 65 ≤ c.toNat && c.toNat ≤ 70 then some (c.toNat - 55)
  else none

/-- Lex the body of a JSON string literal (the opening quote already
consumed): returns the decoded characters and the input after the closing
quote.  Escape sequences are decoded; a raw control character, an invalid
escape, or a missing closing quote is an error. -/
def parseStringBody : List Char → Option (List Char × List Char)
  | [] => none
  | c :: cs =>
      if c = '"' then some ([], cs)
      else if c = '\\' then
        match cs with
        | [] => none
        | e :: cs2 =>
            if e = 'u' then
              match cs2 with
              | h1 :: h2 :: h3 :: h4 :: cs3 =>
                  match hexVal h1, hexVal h2, hexVal h3, hexVal h4 with
                  | some a, some b2, some c2, some d2 =>
                      (parseStringBody cs3).map
                        (fun p =>
                          (Char.ofNat (((a * 16 + b2) * 16 + c2) * 16 + d2)
                            :: p.1, p.2))
                  | _, _, _, _ => none
              | _ => none
            else
              match unescapeChar e with
              | some u => (parseStringBody cs2).map (fun p => (u :: p.1, p.2))
              | none => none
      else if c.toNat < 32 then none
      else (parseStringBody cs).map (fun p => (c :: p.1, p.2))

/-- Parse a JSON integer (optional minus sign, one or more digits). -/
def parseNumber (l : List Char) : Option (Json × List Char) :=
  match l with
  | [] => none
  | c :: cs =>
      if c = '-' then
        match cs with
        | d :: _ =>
            if isDigitC d then
              some (Json.int (-((parseDigits cs 0).1 : Int)),
                (parseDigits cs 0).2)
            else none
        | [] => none
      else if isDigitC c then
        some (Json.int ((parseDigits (c :: cs) 0).1 : Int),
          (parseDigits (c :: cs) 0).2)
      else none

mutual

/-- Parse one JSON value (fuel bounds the nesting of values). -/
def parseValue (fuel : Nat) (l : List Char) : Option (Json × List Char) :=
  match fuel with
  | 0 => none
  | fuel + 1 =>
      match skipWs l with
      | c :: rest =>
          if c = 'n' then
            match rest with
            | 'u' :: 'l' :: 'l' :: r => some (Json.null, r)
            | _ => none
          else if c = 't' then
            match rest with
            | 'r' :: 'u' :: 'e' :: r => some (Json.bool true, r)
            | _ => none
          else if c = 'f' then
            match rest with
            | 'a' :: 'l' :: 's' :: 'e' :: r => some (Json.bool false, r)
            | _ => none
          else if c = '"' then
            (parseStringBody rest).map
              (fun p => (Json.str (String.mk p.1), p.2))
          else if c = '[' then
            match skipWs rest with
            | c2 :: rest2 =>
                if c2 = ']' then some (Json.arr [], rest2)
                else (parseElems fuel (c2 :: rest2)).map
                  (fun p => (Json.arr p.1, p.2))
            | [] => none
          else if c = lbrace then
            match skipWs rest with
            | c2 :: rest2 =>
                if c2 = rbrace then some (Json.obj [], rest2)
                else (parseMembers fuel (c2 :: rest2)).map
                  (fun p => (Json.obj p.1, p.2))
            | [] => none
          else parseNumber (c :: rest)
      | [] => none

/-- Parse one or more comma-separated array elements and the closing `]`. -/
def parseElems (fuel : Nat) (l : List Char) : Option (List Json × List Char) :=
  match fuel with
  | 0 => none
  | fuel + 1 =>
      match parseValue fuel l with
      | none => none
      | some (v, rest) =>
          match skipWs rest with
          | c :: rest2 =>
              if c = ',' then
                (parseElems fuel rest2).map (fun p => (v :: p.1, p.2))
              else if c = ']' then some ([v], rest2)
              else none
          | [] => none

/-- Parse one or more comma-separated object members and the closing
brace. -/
def parseMembers (fuel : Nat) (l : List Char) :
    Option (List (String × Json) × List Char) :=
  match fuel with
  | 0 => none
  | fuel + 1 =>
      match skipWs l with
      | c :: rest =>
          if c = '"' then
            match parseStringBody rest with
            | none => none
            | some (k, rest2) =>
                match skipWs rest2 with
                | c2 :: rest3 =>
                    if c2 = ':' then
                      match parseValue fuel rest3 with
                      | none => none
                      | some (v, rest4) =>
                          match skipWs rest4 with
                          | c3 :: rest5 =>
                              if c3 = ',' then
                                (parseMembers fuel rest5).map
                                  (fun p => ((String.mk k, v) :: p.1, p.2))
                              else if c3 = rbrace then
                                some ([(String.mk k, v)], rest5)
                              else none
                          | [] => none
                    else none
                | [] => none
          else none
      | [] => none

end

/-- Strict JSON deserialization of a whole input string
(`serde_json::from_str` to a `Json` tree): one value, then only trailing
whitespace. -/
def jsonParse (s : String) : Option Json :=
  match parseValue (s.data.length + 1) s.data with
  | some (j, rest) => if skipWs rest = [] then some j else none
  | none => none

end SmsKit

namespace SmsKit

lemma skipWs_cons (c : Char) (l : List Char) (h : isWsC c = false) :
    skipWs (c :: l) = c :: l := by
  simp [skipWs, h]

lemma charOfNat_toNat (n : Nat) (h : n < 55296) :
    (Char.ofNat n).toNat = n := by
  unfold Char.ofNat
  rw [dif_pos (Or.inl (by omega : n < 55296))]
  simp [Char.ofNatAux, Char.toNat, UInt32.toNat, BitVec.toNat_ofNatLt]

lemma digitChar_toNat (k : Nat) (h : k < 10) :
    (digitChar k).toNat = 48 + k := by
  simp only [digitChar]
  rw [charOfNat_toNat _ (by omega)]

lemma natDigits_eq (n : Nat) :
    natDigits n = if n < 10 then [digitChar n]
      else natDigits (n / 10) ++ [digitChar (n % 10)] := by
  rw [natDigits]
  split <;> rfl

lemma natDigits_head (n : Nat) :
    ∃ k t, natDigits n = digitChar k :: t ∧ k < 10 := by
  induction n using Nat.strong_induction_on with
  | _ n ih =>
      rw [natDigits_eq]
      by_cases h : n < 10
      · exact ⟨n, [], by simp [h], h⟩
      · obtain ⟨k, t, hkt, hk⟩ := ih (n / 10)
          (Nat.div_lt_self (by omega) (by omega))
        exact ⟨k, t ++ [digitChar (n % 10)], by simp [h, hkt], hk⟩

lemma isDigitC_digitChar (k : Nat) (h : k < 10) :
    isDigitC (digitChar k) = true := by
  simp only [isDigitC, digitChar_toNat k h]
  simp
  omega

lemma parseDigits_natDigits (m : Nat) :
    ∀ (acc : Nat) (rest : List Char),
      parseDigits (natDigits m ++ rest) acc
        = parseDigits rest (acc * 10 ^ (natDigits m).length + m) := by
  induction m using Nat.strong_induction_on with
  | _ m ih =>
      intro acc rest
      by_cases h : m < 10
      · rw [natDigits_eq, if_pos h]
        simp only [List.singleton_append, List.nil_append, parseDigits,
          isDigitC_digitChar m h, if_pos, List.length_singleton]
        rw [digitChar_toNat m h]
        have harith : acc * 10 + (48 + m - 48) = acc * 10 ^ 1 + m := by
          rw [pow_one]; omega
        rw [harith]
        rfl
      · rw [natDigits_eq, if_neg h, List.append_assoc,
          ih (m / 10) (Nat.div_lt_self (by omega) (by omega))]
        simp only [List.singleton_append, List.nil_append, parseDigits,
          isDigitC_digitChar (m % 10) (by omega), if_pos]
        rw [digitChar_toNat (m % 10) (by omega)]
        have hlen : (natDigits (m / 10) ++ [digitChar (m % 10)]).length
            = (natDigits (m / 10)).length + 1 := by simp
        rw [hlen]
        congr 1
        have harith : (acc * 10 ^ (natDigits (m / 10)).length + m / 10) * 10
              + (48 + m % 10 - 48)
            = acc * (10 ^ (natDigits (m / 10)).length * 10)
              + (10 * (m / 10) + m % 10) := by ring_nf; omega
        rw [harith, ← pow_succ, Nat.div_add_mod]

end SmsKit

namespace SmsKit

/-- The input does not continue with a decimal digit (used to delimit
rendered numbers). -/
def headNotDigit : List Char → Prop
  | [] => True
  | c :: _ => isDigitC c = false

lemma parseDigits_stop (l : List Char) (acc : Nat) (h : headNotDigit l) :
    parseDigits l acc = (acc, l) := by
  cases l with
  | nil => rfl
  | cons c cs =>
      simp only [headNotDigit] at h
      simp [parseDigits, h]

lemma char_ne_of_toNat (c d : Char) (h : c.toNat ≠ d.toNat) : c ≠ d :=
  fun hc => h (by rw [hc])

lemma parseNumber_intChars (n : Int) (rest : List Char)
    (h : headNotDigit rest) :
    parseNumber (intChars n ++ rest) = some (Json.int n, rest) := by
  by_cases hn : n < 0
  · rw [intChars, if_pos hn]
    obtain ⟨k, t, hkt, hk⟩ := natDigits_head n.natAbs
    rw [List.cons_append, hkt]
    simp only [parseNumber, List.cons_append, if_pos]
    rw [if_pos (isDigitC_digitChar k hk)]
    rw [← List.cons_append, ← hkt, parseDigits_natDigits,
      parseDigits_stop _ _ h]
    simp only [Nat.zero_mul, Nat.zero_add]
    rw [show -((n.natAbs : Nat) : Int) = n by omega]
  · rw [intChars, if_neg hn]
    obtain ⟨k, t, hkt, hk⟩ := natDigits_head n.toNat
    rw [hkt, List.cons_append]
    have hnotminus : digitChar k ≠ '-' := by
      apply char_ne_of_toNat
      rw [digitChar_toNat k hk]
      have hm : ('-').toNat = 45 := rfl
      omega
    simp only [parseNumber, if_neg hnotminus]
    rw [if_pos (isDigitC_digitChar k hk)]
    rw [← List.cons_append, ← hkt, parseDigits_natDigits,
      parseDigits_stop _ _ h]
    simp only [Nat.zero_mul, Nat.zero_add]
    rw [show ((n.toNat : Nat) : Int) = n by omega]

lemma hexVal_hexChar (k : Nat) (h : k < 16) : hexVal (hexChar k) = some k := by
  by_cases h10 : k < 10
  · simp only [hexChar, if_pos h10, hexVal, charOfNat_toNat (48 + k) (by omega)]
    have h1 : (48 ≤ 48 + k) = True := by simp
    have h2 : (48 + k ≤ 57) = True := by simp; omega
    simp [h1, h2]
  · simp only [hexChar, if_neg h10, hexVal, charOfNat_toNat (87 + k) (by omega)]
    have h1 : (48 + k ≤ 57) = False := by simp; omega
    have h2 : (97 ≤ 87 + k) = True := by simp; omega
    have h3 : (87 + k ≤ 102) = True := by simp; omega
    simp [h1, h2, h3]
    omega

end SmsKit

namespace SmsKit

lemma escapeString_cons (c : Char) (s : List Char) :
    escapeString (c :: s) = escapeChar c ++ escapeString s := by
  simp [escapeString]

lemma psb_quote (l : List Char) : parseStringBody ('"' :: l) = some ([], l) := by
  rw [parseStringBody.eq_def]
  simp

lemma psb_esc (e u : Char) (hu : unescapeChar e = some u) (hne : e ≠ 'u')
    (l : List Char) :
    parseStringBody ('\\' :: e :: l)
      = (parseStringBody l).map (fun p => (u :: p.1, p.2)) := by
  rw [parseStringBody.eq_def]
  simp [hne, hu]

lemma psb_ord (c : Char) (h1 : c ≠ '"') (h2 : c ≠ '\\')
    (h8 : ¬ c.toNat < 32) (l : List Char) :
    parseStringBody (c :: l)
      = (parseStringBody l).map (fun p => (c :: p.1, p.2)) := by
  rw [parseStringBody.eq_def]
  simp [h1, h2, h8]

lemma psb_u (a b c d : Char) (l : List Char) :
    parseStringBody ('\\' :: 'u' :: a :: b :: c :: d :: l)
      = match hexVal a, hexVal b, hexVal c, hexVal d with
        | some x, some y, some z, some w =>
            (parseStringBody l).map
              (fun p => (Char.ofNat (((x * 16 + y) * 16 + z) * 16 + w)
                :: p.1, p.2))
        | _, _, _, _ => none := by
  rw [parseStringBody.eq_def]
  simp

lemma parseStringBody_escape (s : List Char) :
    ∀ rest, parseStringBody (escapeString s ++ '"' :: rest) = some (s, rest) := by
  induction s with
  | nil =>
      intro rest
      show parseStringBody ('"' :: rest) = some ([], rest)
      exact psb_quote rest
  | cons c s ih =>
      intro rest
      rw [escapeString_cons, List.append_assoc]
      by_cases h1 : c = '"'
      · subst h1
        rw [show escapeChar '"' = ['\\', '"'] from rfl]
        simp only [List.cons_append, List.nil_append]
        rw [psb_esc '"' '"' rfl (by decide), ih]
        rfl
      · by_cases h2 : c = '\\'
        · subst h2
          rw [show escapeChar '\\' = ['\\', '\\'] from rfl]
          simp only [List.cons_append, List.nil_append]
          rw [psb_esc '\\' '\\' rfl (by decide), ih]
          rfl
        · by_cases h3 : c = '\n'
          · subst h3
            rw [show escapeChar '\n' = ['\\', 'n'] from rfl]
            simp only [List.cons_append, List.nil_append]
            rw [psb_esc 'n' '\n' rfl (by decide), ih]
            rfl
          · by_cases h4 : c = '\r'
            · subst h4
              rw [show escapeChar '\r' = ['\\', 'r'] from rfl]
              simp only [List.cons_append, List.nil_append]
              rw [psb_esc 'r' '\r' rfl (by decide), ih]
              rfl
            · by_cases h5 : c = '\t'
              · subst h5
                rw [show escapeChar '\t' = ['\\', 't'] from rfl]
                simp only [List.cons_append, List.nil_append]
                rw [psb_esc 't' '\t' rfl (by decide), ih]
                rfl
              · by_cases h6 : c = Char.ofNat 8
                · subst h6
                  rw [show escapeChar (Char.ofNat 8) = ['\\', 'b'] from rfl]
                  simp only [List.cons_append, List.nil_append]
                  rw [psb_esc 'b' (Char.ofNat 8) rfl (by decide), ih]
                  rfl
                · by_cases h7 : c = Char.ofNat 12
                  · subst h7
                    rw [show escapeChar (Char.ofNat 12) = ['\\', 'f'] from rfl]
                    simp only [List.cons_append, List.nil_append]
                    rw [psb_esc 'f' (Char.ofNat 12) rfl (by decide), ih]
                    rfl
                  · by_cases h8 : c.toNat < 32
                    · have he : escapeChar c
                          = ['\\', 'u', '0', '0', hexChar (c.toNat / 16),
                             hexChar (c.toNat % 16)] := by
                        simp only [escapeChar, if_neg h1, if_neg h2, if_neg h3,
                          if_neg h4, if_neg h5, if_neg h6, if_neg h7,
                          if_pos h8]
                      rw [he]
                      simp only [List.cons_append, List.nil_append]
                      rw [psb_u]
                      rw [hexVal_hexChar (c.toNat / 16) (by omega),
                        hexVal_hexChar (c.toNat % 16) (by omega),
                        show hexVal '0' = some 0 from rfl]
                      simp only [ih, Option.map_some]
                      rw [show ((0 * 16 + 0) * 16 + c.toNat / 16) * 16
                          + c.toNat % 16 = c.toNat by omega, Char.ofNat_toNat]
                      rfl
                    · have he : escapeChar c = [c] := by
                        simp only [escapeChar, if_neg h1, if_neg h2, if_neg h3,
                          if_neg h4, if_neg h5, if_neg h6, if_neg h7,
                          if_neg h8]
                      rw [he]
                      simp only [List.cons_append, List.nil_append]
                      rw [psb_ord c h1 h2 h8, ih]
                      rfl

end SmsKit

namespace SmsKit

mutual

/-- Node count of a JSON tree (drives the parser fuel bound). -/
def sizeJson : Json → Nat
  | .null => 1
  | .bool _ => 1
  | .int _ => 1
  | .str _ => 1
  | .arr xs => 1 + sizeElems xs
  | .obj ms => 1 + sizeMembers ms

/-- Node count of an element list. -/
def sizeElems : List Json → Nat
  | [] => 0
  | x :: xs => 1 + sizeJson x + sizeElems xs

/-- Node count of a member list. -/
def sizeMembers : List (String × Json) → Nat
  | [] => 0
  | (_, v) :: ms => 1 + sizeJson v + sizeMembers ms

end

lemma sizeJson_pos (j : Json) : 1 ≤ sizeJson j := by
  cases j <;> simp [sizeJson]

lemma sizeElems_pos (x : Json) (xs : List Json) :
    1 ≤ sizeElems (x :: xs) := by
  simp only [sizeElems]
  omega

lemma sizeMembers_pos (m : String × Json) (ms : List (String × Json)) :
    1 ≤ sizeMembers (m :: ms) := by
  obtain ⟨k, v⟩ := m
  simp only [sizeMembers]
  omega

lemma stringMk_data (s : String) : String.mk s.data = s := by
  cases s
  rfl

lemma isWsC_false_of_toNat (c : Char) (h32 : c.toNat ≠ 32) (h9 : c.toNat ≠ 9)
    (h10 : c.toNat ≠ 10) (h13 : c.toNat ≠ 13) : isWsC c = false := by
  have h1 : c ≠ ' ' :=
    char_ne_of_toNat _ _ (by have : (' ').toNat = 32 := rfl; omega)
  have h2 : c ≠ '\t' :=
    char_ne_of_toNat _ _ (by have : ('\t').toNat = 9 := rfl; omega)
  have h3 : c ≠ '\n' :=
    char_ne_of_toNat _ _ (by have : ('\n').toNat = 10 := rfl; omega)
  have h4 : c ≠ '\r' :=
    char_ne_of_toNat _ _ (by have : ('\r').toNat = 13 := rfl; omega)
  simp [isWsC, h1, h2, h3, h4]

/-- Every rendered JSON value starts with a non-whitespace character that
is not a closing bracket, closing brace, comma, or colon. -/
lemma render_head (j : Json) :
    ∃ c t, renderJson j = c :: t ∧ isWsC c = false
      ∧ c ≠ ']' ∧ c ≠ rbrace ∧ c ≠ ',' ∧ c ≠ ':' := by
  cases j with
  | null => exact ⟨'n', ['u', 'l', 'l'], by simp [renderJson], by decide,
      by decide, by decide, by decide, by decide⟩
  | bool b =>
      cases b
      · exact ⟨'f', ['a', 'l', 's', 'e'], by simp [renderJson], by decide,
          by decide, by decide, by decide, by decide⟩
      · exact ⟨'t', ['r', 'u', 'e'], by simp [renderJson], by decide,
          by decide, by decide, by decide, by decide⟩
  | int n =>
      by_cases hn : n < 0
      · refine ⟨'-', natDigits n.natAbs, ?_, by decide, by decide, by decide,
          by decide, by decide⟩
        simp [renderJson, intChars, hn]
      · obtain ⟨k, t, hkt, hk⟩ := natDigits_head n.toNat
        have htk := digitChar_toNat k hk
        refine ⟨digitChar k, t, ?_, ?_, ?_, ?_, ?_, ?_⟩
        · simp [renderJson, intChars, hn, hkt]
        · exact isWsC_false_of_toNat _ (by omega) (by omega) (by omega)
            (by omega)
        · exact char_ne_of_toNat _ _
            (by have : (']').toNat = 93 := rfl; omega)
        · exact char_ne_of_toNat _ _
            (by have : rbrace.toNat = 125 := rfl; omega)
        · exact char_ne_of_toNat _ _
            (by have : (',').toNat = 44 := rfl; omega)
        · exact char_ne_of_toNat _ _
            (by have : (':').toNat = 58 := rfl; omega)
  | str s => exact ⟨'"', escapeString s.data ++ ['"'], by simp [renderJson],
      by decide, by decide, by decide, by decide, by decide⟩
  | arr xs => exact ⟨'[', renderElems xs ++ [']'], by simp [renderJson],
      by decide, by decide, by decide, by decide, by decide⟩
  | obj ms => exact ⟨lbrace, renderMembers ms ++ [rbrace],
      by simp [renderJson], by decide, by decide, by decide, by decide,
      by decide⟩

end SmsKit

namespace SmsKit

lemma headNotDigit_cons (c : Char) (rest : List Char)
    (h : isDigitC c = false) : headNotDigit (c :: rest) := h

lemma parseElems_succ (fuel : Nat) (l : List Char) :
    parseElems (fuel + 1) l
      = match parseValue fuel l with
        | none => none
        | some (v, rest) =>
            match skipWs rest with
            | c :: rest2 =>
                if c = ',' then
                  (parseElems fuel rest2).map (fun p => (v :: p.1, p.2))
                else if c = ']' then some ([v], rest2)
                else none
            | [] => none := by
  rw [parseElems.eq_def]

lemma parseMembers_succ (fuel : Nat) (l : List Char) :
    parseMembers (fuel + 1) l
      = match skipWs l with
        | c :: rest =>
            if c = '"' then
              match parseStringBody rest with
              | none => none
              | some (k, rest2) =>
                  match skipWs rest2 with
                  | c2 :: rest3 =>
                      if c2 = ':' then
                        match parseValue fuel rest3 with
                        | none => none
                        | some (v, rest4) =>
                            match skipWs rest4 with
                            | c3 :: rest5 =>
                                if c3 = ',' then
                                  (parseMembers fuel rest5).map
                                    (fun p => ((String.mk k, v) :: p.1, p.2))
                                else if c3 = rbrace then
                                  some ([(String.mk k, v)], rest5)
                                else none
                            | [] => none
                      else none
                  | [] => none
            else none
        | [] => none := by
  rw [parseMembers.eq_def]

theorem parse_render_all : ∀ fuel : Nat,
    (∀ (j : Json) (rest : List Char), sizeJson j ≤ fuel → headNotDigit rest →
      parseValue fuel (renderJson j ++ rest) = some (j, rest))
    ∧ (∀ (xs : List Json) (rest : List Char), xs ≠ [] → sizeElems xs ≤ fuel →
      parseElems fuel (renderElems xs ++ ']' :: rest) = some (xs, rest))
    ∧ (∀ (ms : List (String × Json)) (rest : List Char), ms ≠ [] →
      sizeMembers ms ≤ fuel →
      parseMembers fuel (renderMembers ms ++ rbrace :: rest)
        = some (ms, rest)) := by
  intro fuel
  induction fuel with
  | zero =>
      refine ⟨fun j rest hs _ => absurd hs (by have := sizeJson_pos j; omega),
        fun xs rest hne hs => ?_, fun ms rest hne hs => ?_⟩
      · cases xs with
        | nil => exact absurd rfl hne
        | cons x xs => exact absurd hs (by have := sizeElems_pos x xs; omega)
      · cases ms with
        | nil => exact absurd rfl hne
        | cons m ms => exact absurd hs (by have := sizeMembers_pos m ms; omega)
  | succ fuel ih =>
      refine ⟨fun j rest hs hnd => ?_, fun xs rest hne hs => ?_,
        fun ms rest hne hs => ?_⟩
      · -- parseValue on a rendered value
        cases j with
        | null =>
            rw [show renderJson Json.null ++ rest
              = 'n' :: 'u' :: 'l' :: 'l' :: rest by simp [renderJson]]
            rw [parseValue.eq_def]
            rw [skipWs_cons _ _ (by decide)]
            simp
        | bool b => cases b with
          | true =>
              rw [show renderJson (Json.bool true) ++ rest
                = 't' :: 'r' :: 'u' :: 'e' :: rest by simp [renderJson]]
              rw [parseValue.eq_def]
              rw [skipWs_cons _ _ (by decide)]
              simp
          | false =>
              rw [show renderJson (Json.bool false) ++ rest
                = 'f' :: 'a' :: 'l' :: 's' :: 'e' :: rest by simp [renderJson]]
              rw [parseValue.eq_def]
              rw [skipWs_cons _ _ (by decide)]
              simp
        | int n =>
            rw [show renderJson (Json.int n) = intChars n by simp [renderJson]]
            by_cases hn : n < 0
            · rw [show intChars n ++ rest
                = '-' :: (natDigits n.natAbs ++ rest) by
                  rw [intChars, if_pos hn]; simp]
              rw [parseValue.eq_def]
              rw [skipWs_cons _ _ (by decide)]
              simp +decide only [reduceIte]
              rw [show '-' :: (natDigits n.natAbs ++ rest)
                = intChars n ++ rest by rw [intChars, if_pos hn]; simp]
              rw [parseNumber_intChars n rest hnd]
            · obtain ⟨k, t, hkt, hk⟩ := natDigits_head n.toNat
              have htk := digitChar_toNat k hk
              rw [show intChars n ++ rest
                = digitChar k :: (t ++ rest) by
                  rw [intChars, if_neg hn, hkt]; simp]
              rw [parseValue.eq_def]
              rw [skipWs_cons _ _ (isWsC_false_of_toNat _ (by omega) (by omega)
                (by omega) (by omega))]
              have hd1 : digitChar k ≠ 'n' := char_ne_of_toNat _ _
                (by have : ('n').toNat = 110 := rfl; omega)
              have hd2 : digitChar k ≠ 't' := char_ne_of_toNat _ _
                (by have : ('t').toNat = 116 := rfl; omega)
              have hd3 : digitChar k ≠ 'f' := char_ne_of_toNat _ _
                (by have : ('f').toNat = 102 := rfl; omega)
              have hd4 : digitChar k ≠ '"' := char_ne_of_toNat _ _
                (by have : ('"').toNat = 34 := rfl; omega)
              have hd5 : digitChar k ≠ '[' := char_ne_of_toNat _ _
                (by have : ('[').toNat = 91 := rfl; omega)
              have hd6 : digitChar k ≠ lbrace := char_ne_of_toNat _ _
                (by have : lbrace.toNat = 123 := rfl; omega)
              simp only [hd1, hd2, hd3, hd4, hd5, hd6, if_false, ite_false,
                if_neg, reduceIte]
              rw [show digitChar k :: (t ++ rest)
                = intChars n ++ rest by
                  rw [intChars, if_neg hn, hkt]; simp]
              rw [parseNumber_intChars n rest hnd]
        | str s =>
            rw [show renderJson (Json.str s) ++ rest
              = '"' :: (escapeString s.data ++ '"' :: rest) by
                simp [renderJson]]
            rw [parseValue.eq_def]
            rw [skipWs_cons _ _ (by decide)]
            simp +decide only [reduceIte]
            rw [parseStringBody_escape]
            simp [stringMk_data]
        | arr xs =>
            cases xs with
            | nil =>
                rw [show renderJson (Json.arr []) ++ rest = '[' :: ']' :: rest
                  by simp [renderJson, renderElems]]
                rw [parseValue.eq_def]
                rw [skipWs_cons _ _ (by decide)]
                simp +decide only [reduceIte]
                rw [skipWs_cons _ _ (by decide)]
                simp
            | cons x xs =>
                obtain ⟨c0, t0, hct, hws, hne1, hne2, hne3, hne4⟩ :=
                  render_head x
                have hre : ∃ t1, renderElems (x :: xs) = c0 :: t1 := by
                  cases xs with
                  | nil => exact ⟨t0, by simp [renderElems, hct]⟩
                  | cons y ys =>
                      exact ⟨t0 ++ ',' :: renderElems (y :: ys), by
                        simp [renderElems, hct]⟩
                obtain ⟨t1, ht1⟩ := hre
                rw [show renderJson (Json.arr (x :: xs)) ++ rest
                  = '[' :: (renderElems (x :: xs) ++ ']' :: rest) by
                    simp [renderJson]]
                rw [parseValue.eq_def]
                rw [skipWs_cons _ _ (by decide)]
                simp +decide only [reduceIte]
                have hsk : skipWs (renderElems (x :: xs) ++ ']' :: rest)
                    = c0 :: (t1 ++ ']' :: rest) := by
                  rw [ht1, List.cons_append, skipWs_cons _ _ hws]
                simp only [hsk, hne1, if_neg, reduceIte, ite_false, if_false]
                rw [show c0 :: (t1 ++ ']' :: rest)
                  = renderElems (x :: xs) ++ ']' :: rest by
                    rw [ht1]; simp]
                rw [ih.2.1 (x :: xs) rest (by simp) (by
                  simp only [sizeJson] at hs; omega)]
                rfl
        | obj ms =>
            cases ms with
            | nil =>
                rw [show renderJson (Json.obj []) ++ rest
                  = lbrace :: rbrace :: rest
                  by simp [renderJson, renderMembers]]
                rw [parseValue.eq_def]
                rw [skipWs_cons _ _ (by decide)]
                simp +decide only [reduceIte]
                rw [skipWs_cons _ _ (by decide)]
                simp
            | cons m ms =>
                obtain ⟨k, v⟩ := m
                have hrm : ∃ t1, renderMembers ((k, v) :: ms) = '"' :: t1 := by
                  cases ms with
                  | nil =>
                      exact ⟨escapeString k.data ++ '"' :: ':' :: renderJson v,
                        by simp [renderMembers]⟩
                  | cons m2 ms2 =>
                      exact ⟨escapeString k.data ++ '"' :: ':'
                          :: (renderJson v ++ ',' :: renderMembers (m2 :: ms2)),
                        by simp [renderMembers]⟩
                obtain ⟨t1, ht1⟩ := hrm
                rw [show renderJson (Json.obj ((k, v) :: ms)) ++ rest
                  = lbrace :: (renderMembers ((k, v) :: ms) ++ rbrace :: rest)
                  by simp [renderJson]]
                rw [parseValue.eq_def]
                rw [skipWs_cons _ _ (by decide)]
                simp +decide only [reduceIte]
                have hsk : skipWs (renderMembers ((k, v) :: ms)
                      ++ rbrace :: rest)
                    = '"' :: (t1 ++ rbrace :: rest) := by
                  rw [ht1, List.cons_append, skipWs_cons _ _ (by decide)]
                have hnq : ('"' : Char) ≠ rbrace := by decide
                simp only [hsk, hnq, if_neg, reduceIte, ite_false, if_false]
                rw [show '"' :: (t1 ++ rbrace :: rest)
                  = renderMembers ((k, v) :: ms) ++ rbrace :: rest by
                    rw [ht1]; simp]
                rw [ih.2.2 ((k, v) :: ms) rest (by simp) (by
                  simp only [sizeJson] at hs; omega)]
                rfl
      · -- parseElems on rendered elements
        cases xs with
        | nil => exact absurd rfl hne
        | cons x xs =>
            have hsx : sizeJson x ≤ fuel := by
              simp only [sizeElems] at hs; omega
            rw [parseElems_succ]
            cases xs with
            | nil =>
                rw [show renderElems [x] ++ ']' :: rest
                  = renderJson x ++ (']' :: rest) by simp [renderElems]]
                rw [ih.1 x (']' :: rest) hsx
                  (headNotDigit_cons _ _ (by decide))]
                simp +decide only [skipWs, reduceIte]
            | cons y ys =>
                rw [show renderElems (x :: y :: ys) ++ ']' :: rest
                  = renderJson x
                    ++ (',' :: (renderElems (y :: ys) ++ ']' :: rest)) by
                      simp [renderElems]]
                rw [ih.1 x (',' :: (renderElems (y :: ys) ++ ']' :: rest)) hsx
                  (headNotDigit_cons _ _ (by decide))]
                simp +decide only [skipWs, reduceIte]
                rw [ih.2.1 (y :: ys) rest (by simp) (by
                  simp only [sizeElems] at hs ⊢; omega)]
                rfl
      · -- parseMembers on rendered members
        cases ms with
        | nil => exact absurd rfl hne
        | cons m ms =>
            obtain ⟨k, v⟩ := m
            have hsv : sizeJson v ≤ fuel := by
              simp only [sizeMembers] at hs; omega
            rw [parseMembers_succ]
            cases ms with
            | nil =>
                rw [show renderMembers [(k, v)] ++ rbrace :: rest
                  = '"' :: (escapeString k.data
                      ++ '"' :: (':' :: (renderJson v ++ rbrace :: rest))) by
                    simp [renderMembers]]
                simp +decide only [skipWs, reduceIte]
                rw [parseStringBody_escape]
                simp +decide only [skipWs, reduceIte]
                rw [ih.1 v (rbrace :: rest) hsv
                  (headNotDigit_cons _ _ (by decide))]
                simp +decide only [skipWs, reduceIte]
            | cons m2 ms2 =>
                rw [show renderMembers ((k, v) :: m2 :: ms2) ++ rbrace :: rest
                  = '"' :: (escapeString k.data
                      ++ '"' :: (':' :: (renderJson v
                        ++ ',' :: (renderMembers (m2 :: ms2)
                          ++ rbrace :: rest)))) by
                    simp [renderMembers]]
                simp +decide only [skipWs, reduceIte]
                rw [parseStringBody_escape]
                simp +decide only [skipWs, reduceIte]
                rw [ih.1 v (',' :: (renderMembers (m2 :: ms2)
                    ++ rbrace :: rest)) hsv
                  (headNotDigit_cons _ _ (by decide))]
                simp +decide only [skipWs, reduceIte]
                rw [ih.2.2 (m2 :: ms2) rest (by simp) (by
                  simp only [sizeMembers] at hs ⊢; omega)]
                simp [stringMk_data]

end SmsKit

namespace SmsKit

theorem size_le_render_all : ∀ n : Nat,
    (∀ j, sizeJson j ≤ n → sizeJson j ≤ (renderJson j).length)
    ∧ (∀ xs, sizeElems xs ≤ n → sizeElems xs ≤ (renderElems xs).length + 1)
    ∧ (∀ ms, sizeMembers ms ≤ n →
        sizeMembers ms ≤ (renderMembers ms).length + 1) := by
  intro n
  induction n with
  | zero =>
      refine ⟨fun j hs => absurd hs (by have := sizeJson_pos j; omega),
        fun xs hs => ?_, fun ms hs => ?_⟩
      · cases xs with
        | nil => simp [sizeElems]
        | cons x xs => exact absurd hs (by have := sizeElems_pos x xs; omega)
      · cases ms with
        | nil => simp [sizeMembers]
        | cons m ms =>
            exact absurd hs (by have := sizeMembers_pos m ms; omega)
  | succ n ih =>
      refine ⟨fun j hs => ?_, fun xs hs => ?_, fun ms hs => ?_⟩
      · cases j with
        | null => simp [sizeJson, renderJson]
        | bool b => cases b <;> simp [sizeJson, renderJson]
        | int m =>
            obtain ⟨c, t, hct, _, _, _, _, _⟩ := render_head (Json.int m)
            simp [sizeJson, hct]
        | str s => simp [sizeJson, renderJson]
        | arr xs =>
            have h2 : sizeElems xs ≤ n := by
              simp only [sizeJson] at hs; omega
            have hx := ih.2.1 xs h2
            simp only [sizeJson, renderJson, List.length_cons,
              List.length_append, List.length_singleton]
            omega
        | obj ms =>
            have h2 : sizeMembers ms ≤ n := by
              simp only [sizeJson] at hs; omega
            have hx := ih.2.2 ms h2
            simp only [sizeJson, renderJson, List.length_cons,
              List.length_append, List.length_singleton]
            omega
      · cases xs with
        | nil => simp [sizeElems]
        | cons x xs =>
            have h1 : sizeJson x ≤ n := by
              simp only [sizeElems] at hs; omega
            have hx := ih.1 x h1
            cases xs with
            | nil =>
                simp only [sizeElems, renderElems]
                omega
            | cons y ys =>
                have h2 : sizeElems (y :: ys) ≤ n := by
                  simp only [sizeElems] at hs ⊢; omega
                have hys := ih.2.1 (y :: ys) h2
                simp only [sizeElems, renderElems, List.length_append,
                  List.length_cons] at hys ⊢
                omega
      · cases ms with
        | nil => simp [sizeMembers]
        | cons m ms =>
            obtain ⟨k, v⟩ := m
            have h1 : sizeJson v ≤ n := by
              simp only [sizeMembers] at hs; omega
            have hv := ih.1 v h1
            cases ms with
            | nil =>
                simp only [sizeMembers, renderMembers, List.length_cons,
                  List.length_append]
                omega
            | cons m2 ms2 =>
                have h2 : sizeMembers (m2 :: ms2) ≤ n := by
                  simp only [sizeMembers] at hs ⊢; omega
                have hms := ih.2.2 (m2 :: ms2) h2
                simp only [sizeMembers, renderMembers, List.length_append,
                  List.length_cons] at hms ⊢
                omega

/-- Round trip: strict JSON deserialization inverts compact rendering on
every JSON tree. -/
theorem jsonParse_render (j : Json) :
    jsonParse (String.mk (renderJson j)) = some j := by
  unfold jsonParse
  have hdata : (String.mk (renderJson j)).data = renderJson j := rfl
  rw [hdata]
  have hsz : sizeJson j ≤ (renderJson j).length + 1 := by
    have := (size_le_render_all (sizeJson j)).1 j (Nat.le_refl _)
    omega
  have hp := (parse_render_all ((renderJson j).length + 1)).1 j [] hsz trivial
  rw [List.append_nil] at hp
  rw [hp]
  rfl

end SmsKit

namespace SmsKit

/-- Model of `enum SmsError` from `crates/sms-core/src/lib.rs`. -/
inductive SmsError where
  | Http (msg : String) : SmsError
  | Auth (msg : String) : SmsError
  | Invalid (msg : String) : SmsError
  | Provider (msg : String) : SmsError
  | Unexpected (msg : String) : SmsError
  deriving Repr, DecidableEq

/-- The `Display` implementation generated by `#[error("...")]` on
`SmsError` (what `e.to_string()` returns). -/
def SmsError.toString : SmsError → String
  | .Http m => "http error: " ++ m
  | .Auth m => "authentication error: " ++ m
  | .Invalid m => "invalid request: " ++ m
  | .Provider m => "provider error: " ++ m
  | .Unexpected m => "unexpected: " ++ m

/-- Model of `enum WebhookError` (the `SmsError` payload kept intact, as
`#[from]` does). -/
inductive WebhookError where
  | ProviderNotFound (provider : String) : WebhookError
  | VerificationFailed (msg : String) : WebhookError
  | ParseError (msg : String) : WebhookError
  | smsError (e : SmsError) : WebhookError
  deriving Repr, DecidableEq

/-- Model of `enum HttpStatus`. -/
inductive HttpStatus where
  | Ok : HttpStatus
  | BadRequest : HttpStatus
  | Unauthorized : HttpStatus
  | NotFound : HttpStatus
  | InternalServerError : HttpStatus
  deriving Repr, DecidableEq

/-- `HttpStatus::as_u16` (the discriminant values of the Rust enum). -/
def HttpStatus.as_u16 : HttpStatus → Nat
  | .Ok => 200
  | .BadRequest => 400
  | .Unauthorized => 401
  | .NotFound => 404
  | .InternalServerError => 500

/-- `type Headers = Vec<(String, String)>`. -/
abbrev Headers := List (String × String)

/-- Modelled from the `time` crate (an external collaborator of this
repository): an `OffsetDateTime` as the compact tuple its serde support
serializes — calendar/offset components — rendered as a JSON array of
integers.  What the claims rely on is only that this serialization is
inverted exactly by deserialization. -/
structure Timestamp where
  year : Int
  ordinal : Int
  hour : Int
  minute : Int
  second : Int
  nanosecond : Int
  offset_hour : Int
  offset_minute : Int
  offset_second : Int
  deriving Repr, DecidableEq

/-- Model of `struct InboundMessage` (`from_` and `to_` model the Rust
fields `from` and `to`, reserved words in Lean);
`provider: &'static str` is a string,
`raw: serde_json::Value` is a `Json` tree. -/
structure InboundMessage where
  id : Option String
  from_ : String
  to_ : String
  text : String
  timestamp : Option Timestamp
  provider : String
  raw : Json
  deriving Repr

/-- serde serialization of an `Option<String>` field. -/
def optionStringToJson : Option String → Json
  | none => Json.null
  | some s => Json.str s

/-- serde serialization of a `Timestamp` (array of its components). -/
def timestampToJson (t : Timestamp) : Json :=
  Json.arr [Json.int t.year, Json.int t.ordinal, Json.int t.hour,
    Json.int t.minute, Json.int t.second, Json.int t.nanosecond,
    Json.int t.offset_hour, Json.int t.offset_minute,
    Json.int t.offset_second]

/-- serde serialization of an `Option<Timestamp>` field. -/
def optionTimestampToJson : Option Timestamp → Json
  | none => Json.null
  | some t => timestampToJson t

/-- The serde-derive serialization of an `InboundMessage`: an object with
the fields in declaration order. -/
def inboundToJson (m : InboundMessage) : Json :=
  Json.obj [("id", optionStringToJson m.id),
    ("from", Json.str m.from_),
    ("to", Json.str m.to_),
    ("text", Json.str m.text),
    ("timestamp", optionTimestampToJson m.timestamp),
    ("provider", Json.str m.provider),
    ("raw", m.raw)]

/-- serde deserialization of a string field. -/
def strFromJson : Json → Option String
  | .str s => some s
  | _ => none

/-- serde deserialization of an `Option<String>` field. -/
def optionStringFromJson : Json → Option (Option String)
  | .null => some none
  | .str s => some (some s)
  | _ => none

/-- serde deserialization of a `Timestamp`. -/
def timestampFromJson : Json → Option Timestamp
  | .arr [Json.int y, Json.int o, Json.int h, Json.int mi, Json.int s,
      Json.int ns, Json.int oh, Json.int om, Json.int os] =>
      some ⟨y, o, h, mi, s, ns, oh, om, os⟩
  | _ => none

/-- serde deserialization of an `Option<Timestamp>` field. -/
def optionTimestampFromJson : Json → Option (Option Timestamp)
  | .null => some none
  | j => (timestampFromJson j).map some

/-- The serde-derive deserialization of an `InboundMessage` from a JSON
tree: an object whose fields are looked up by name. -/
def inboundFromJson : Json → Option InboundMessage
  | .obj ms => do
      let id ← (alistGet ms "id").bind optionStringFromJson
      let f ← (alistGet ms "from").bind strFromJson
      let t ← (alistGet ms "to").bind strFromJson
      let x ← (alistGet ms "text").bind strFromJson
      let ts ← (alistGet ms "timestamp").bind optionTimestampFromJson
      let pr ← (alistGet ms "provider").bind strFromJson
      let raw ← alistGet ms "raw"
      pure ⟨id, f, t, x, ts, pr, raw⟩
  | _ => none

/-- `serde_json::from_str::<InboundMessage>`: parse, then decode. -/
def deserializeInboundMessage (s : String) : Option InboundMessage :=
  (jsonParse s).bind inboundFromJson

/-- Model of `struct WebhookResponse`. -/
structure WebhookResponse where
  status : HttpStatus
  body : String
  content_type : String
  deriving Repr, DecidableEq

/-- `msg.replace('"', "\\\"")`: each double quote becomes `\"`; every
other character is kept as is. -/
def escapeQuotes (s : String) : String :=
  String.mk ((s.data.map
    (fun c => if c = '"' then ['\\', '"'] else [c])).join)

/-- The error body template
`format!(r#"{{"error": "{}"}}"#, message.replace('"', "\\\""))`. -/
def errorBody (message : String) : String :=
  "\x7b\"error\": \"" ++ escapeQuotes message ++ "\"\x7d"

/-- `WebhookResponse::success`: status 200, the message serialized as
JSON (`serde_json::to_string` never fails on this data, so the `"{}"`
fallback of the source is unreachable in the model), JSON content type. -/
def WebhookResponse.success (message : InboundMessage) : WebhookResponse :=
  { status := HttpStatus.Ok
    body := String.mk (renderJson (inboundToJson message))
    content_type := "application/json" }

/-- `WebhookResponse::error`. -/
def WebhookResponse.error (status : HttpStatus) (message : String) :
    WebhookResponse :=
  { status := status
    body := errorBody message
    content_type := "application/json" }

/-- Model of a `dyn InboundWebhook` handler: the stable provider key and
the `verify` / `parse_inbound` operations (the trait's `verify` defaults
to `Ok(())`; a model handler carries its functions explicitly). -/
structure InboundWebhook where
  provider : String
  verify : Headers → List Nat → Except SmsError Unit
  parse_inbound : Headers → List Nat → Except SmsError InboundMessage

/-- Model of `InboundRegistry`: the shared `HashMap` as a lookup
function. -/
structure InboundRegistry where
  map : String → Option InboundWebhook

/-- `InboundRegistry::new`. -/
def InboundRegistry.new : InboundRegistry := ⟨fun _ => none⟩

/-- `InboundRegistry::with`: clone the map, insert the hook under its
provider key, return the new registry (the receiver value is unchanged —
copy-on-write). -/
def InboundRegistry.with (r : InboundRegistry) (hook : InboundWebhook) :
    InboundRegistry :=
  ⟨fun k => if k = hook.provider then some hook else r.map k⟩

/-- `InboundRegistry::get`. -/
def InboundRegistry.get (r : InboundRegistry) (provider : String) :
    Option InboundWebhook :=
  r.map provider

/-- Model of `WebhookProcessor` from `crates/sms-web-generic`. -/
structure WebhookProcessor where
  registry : InboundRegistry

/-- `WebhookProcessor::process_webhook_internal`: resolve the handler
(absence is `ProviderNotFound`), verify (failure wrapped as
`VerificationFailed` with the error's display string), parse (failure
wrapped as `ParseError`). -/
def WebhookProcessor.process_webhook_internal (p : WebhookProcessor)
    (provider : String) (headers : Headers) (body : List Nat) :
    Except WebhookError InboundMessage :=
  match p.registry.get provider with
  | none => Except.error (WebhookError.ProviderNotFound provider)
  | some hook =>
      match hook.verify headers body with
      | Except.error e =>
          Except.error (WebhookError.VerificationFailed (SmsError.toString e))
      | Except.ok _ =>
          match hook.parse_inbound headers body with
          | Except.error e =>
              Except.error (WebhookError.ParseError (SmsError.toString e))
          | Except.ok m => Except.ok m

/-- `WebhookProcessor::error_to_response`. -/
def WebhookProcessor.error_to_response : WebhookError → WebhookResponse
  | WebhookError.ProviderNotFound _ =>
      WebhookResponse.error HttpStatus.NotFound "unknown provider"
  | WebhookError.VerificationFailed msg =>
      WebhookResponse.error HttpStatus.Unauthorized
        ("verification failed: " ++ msg)
  | WebhookError.ParseError msg =>
      WebhookResponse.error HttpStatus.BadRequest ("parse error: " ++ msg)
  | WebhookError.smsError e =>
      WebhookResponse.error HttpStatus.InternalServerError
        ("SMS error: " ++ SmsError.toString e)

/-- `WebhookProcessor::process_webhook`. -/
def WebhookProcessor.process_webhook (p : WebhookProcessor)
    (provider : String) (headers : Headers) (body : List Nat) :
    WebhookResponse :=
  match p.process_webhook_internal provider headers body with
  | Except.ok message => WebhookResponse.success message
  | Except.error e => WebhookProcessor.error_to_response e

end SmsKit

namespace SmsKit

lemma inboundFromJson_toJson (m : InboundMessage) :
    inboundFromJson (inboundToJson m) = some m := by
  obtain ⟨id, f, t, x, ts, pr, raw⟩ := m
  cases id <;> cases ts <;>
    simp [inboundToJson, inboundFromJson, alistGet, optionStringToJson,
      optionStringFromJson, strFromJson, optionTimestampToJson,
      optionTimestampFromJson, timestampToJson, timestampFromJson]

/-- C1: the dispatch error mapping is a total function over the error
taxonomy with exactly one status/body pair per kind: an unregistered
provider key yields 404 with body `{"error": "unknown provider"}` (written
with escaped braces) regardless of headers and body; a verify failure
yields 401 with `{"error": "verification failed: <msg>"}`; a parse failure
yields 400 with `{"error": "parse error: <msg>"}`; a surfaced `SmsError`
yields 500 with `{"error": "SMS error: <msg>"}` (each body built by
`errorBody`, which escapes double quotes in `<msg>`). -/
theorem webhook_error_mapping :
    (∀ (p : WebhookProcessor) (provider : String) (headers : Headers)
        (body : List Nat), p.registry.get provider = none →
      p.process_webhook provider headers body
        = ⟨HttpStatus.NotFound, "\x7b\"error\": \"unknown provider\"\x7d",
            "application/json"⟩
      ∧ (p.process_webhook provider headers body).status.as_u16 = 404)
    ∧ (∀ msg, WebhookProcessor.error_to_response
          (WebhookError.VerificationFailed msg)
        = ⟨HttpStatus.Unauthorized,
            errorBody ("verification failed: " ++ msg), "application/json"⟩)
    ∧ (∀ msg, WebhookProcessor.error_to_response (WebhookError.ParseError msg)
        = ⟨HttpStatus.BadRequest, errorBody ("parse error: " ++ msg),
            "application/json"⟩)
    ∧ (∀ e, WebhookProcessor.error_to_response (WebhookError.smsError e)
        = ⟨HttpStatus.InternalServerError,
            errorBody ("SMS error: " ++ SmsError.toString e),
            "application/json"⟩)
    ∧ (∀ pr, WebhookProcessor.error_to_response
          (WebhookError.ProviderNotFound pr)
        = ⟨HttpStatus.NotFound, errorBody "unknown provider",
            "application/json"⟩)
    ∧ HttpStatus.Unauthorized.as_u16 = 401
    ∧ HttpStatus.BadRequest.as_u16 = 400
    ∧ HttpStatus.InternalServerError.as_u16 = 500 := by
  refine ⟨fun p provider headers body hnone => ?_,
    fun msg => rfl, fun msg => rfl, fun e => rfl, fun pr => rfl,
    rfl, rfl, rfl⟩
  have hres : p.process_webhook provider headers body
      = ⟨HttpStatus.NotFound, errorBody "unknown provider",
          "application/json"⟩ := by
    unfold WebhookProcessor.process_webhook
      WebhookProcessor.process_webhook_internal
    rw [hnone]
    rfl
  refine ⟨?_, by rw [hres]; rfl⟩
  rw [hres]
  have : errorBody "unknown provider"
      = "\x7b\"error\": \"unknown provider\"\x7d" := by decide
  rw [this]

/-- Witness for `webhook_error_mapping`: the unknown-provider case on an
empty registry with a non-trivial header list and body. -/
theorem webhook_error_mapping_witness :
    (WebhookProcessor.mk InboundRegistry.new).process_webhook "twilio"
        [("x-header", "v")] [0, 255]
      = ⟨HttpStatus.NotFound, "\x7b\"error\": \"unknown provider\"\x7d",
          "application/json"⟩ :=
  ((webhook_error_mapping.1 (WebhookProcessor.mk InboundRegistry.new)
    "twilio" [("x-header", "v")] [0, 255] rfl).1)

/-- C4: registering a handler is a functional update: after replacing the
handler under a key, the new registry resolves that key to the latest
handler, the previously built registry value still resolves it to the old
handler, and every other key is unaffected. -/
theorem registry_copy_on_write (r : InboundRegistry)
    (h1 h2 : InboundWebhook) (p : String)
    (hp1 : h1.provider = p) (hp2 : h2.provider = p) :
    ((r.with h1).with h2).get p = some h2
    ∧ (r.with h1).get p = some h1
    ∧ ∀ k, k ≠ p → ((r.with h1).with h2).get k = r.get k := by
  refine ⟨?_, ?_, fun k hk => ?_⟩
  · simp [InboundRegistry.with, InboundRegistry.get, hp2]
  · simp [InboundRegistry.with, InboundRegistry.get, hp1]
  · simp [InboundRegistry.with, InboundRegistry.get, hp1, hp2, hk]

end SmsKit

namespace SmsKit

/-- A concrete handler used by witnesses. -/
def hookA : InboundWebhook :=
  { provider := "prov"
    verify := fun _ _ => Except.ok ()
    parse_inbound := fun _ _ => Except.error (SmsError.Http "boom") }

/-- A second concrete handler under the same key. -/
def hookB : InboundWebhook :=
  { provider := "prov"
    verify := fun _ _ => Except.ok ()
    parse_inbound := fun _ _ => Except.error (SmsError.Auth "nope") }

/-- Witness for `registry_copy_on_write`: two handlers under `"prov"`. -/
theorem registry_copy_on_write_witness :
    ((InboundRegistry.new.with hookA).with hookB).get "prov" = some hookB
    ∧ (InboundRegistry.new.with hookA).get "prov" = some hookA
    ∧ ((InboundRegistry.new.with hookA).with hookB).get "plivo"
        = InboundRegistry.new.get "plivo" :=
  ⟨(registry_copy_on_write InboundRegistry.new hookA hookB "prov" rfl rfl).1,
   (registry_copy_on_write InboundRegistry.new hookA hookB "prov" rfl rfl).2.1,
   (registry_copy_on_write InboundRegistry.new hookA hookB "prov" rfl rfl).2.2
     "plivo" (by decide)⟩

/-- C5: when the resolved handler verifies and parses successfully, the
pipeline returns status 200 (content type `application/json`) with the
message serialized as JSON, and deserializing that body yields exactly the
message the handler produced — serialization round-trips. -/
theorem webhook_success_roundtrip (p : WebhookProcessor) (provider : String)
    (headers : Headers) (body : List Nat) (hook : InboundWebhook)
    (m : InboundMessage)
    (hget : p.registry.get provider = some hook)
    (hver : hook.verify headers body = Except.ok ())
    (hparse : hook.parse_inbound headers body = Except.ok m) :
    p.process_webhook provider headers body
      = ⟨HttpStatus.Ok, String.mk (renderJson (inboundToJson m)),
          "application/json"⟩
    ∧ (p.process_webhook provider headers body).status.as_u16 = 200
    ∧ deserializeInboundMessage
        ((p.process_webhook provider headers body).body) = some m := by
  have hres : p.process_webhook provider headers body
      = WebhookResponse.success m := by
    unfold WebhookProcessor.process_webhook
      WebhookProcessor.process_webhook_internal
    rw [hget]
    simp [hver, hparse]
  refine ⟨by rw [hres]; rfl, by rw [hres]; rfl, ?_⟩
  rw [hres]
  show deserializeInboundMessage
    (String.mk (renderJson (inboundToJson m))) = some m
  unfold deserializeInboundMessage
  rw [jsonParse_render]
  simp [inboundFromJson_toJson]

/-- A concrete inbound message used by witnesses. -/
def msgW : InboundMessage :=
  { id := some "id-1"
    from_ := "+15550001111"
    to_ := "+15552223333"
    text := "hello \"world\"\n"
    timestamp := some ⟨2024, 32, 13, 5, 59, 123456789, -5, 30, 0⟩
    provider := "prov"
    raw := Json.obj [("MessageSid", Json.str "SM1"),
      ("vals", Json.arr [Json.int (-2), Json.null, Json.bool true])] }

/-- A concrete handler that accepts and parses to `msgW`. -/
def hookW : InboundWebhook :=
  { provider := "prov"
    verify := fun _ _ => Except.ok ()
    parse_inbound := fun _ _ => Except.ok msgW }

/-- Witness for `webhook_success_roundtrip`: a registry holding `hookW`
processes a webhook and the body deserializes back to `msgW`. -/
theorem webhook_success_roundtrip_witness :
    (WebhookProcessor.mk (InboundRegistry.new.with hookW)).process_webhook
        "prov" [("h", "v")] [1, 2]
      = ⟨HttpStatus.Ok, String.mk (renderJson (inboundToJson msgW)),
          "application/json"⟩
    ∧ deserializeInboundMessage
        (((WebhookProcessor.mk
            (InboundRegistry.new.with hookW)).process_webhook
          "prov" [("h", "v")] [1, 2]).body) = some msgW :=
  ⟨(webhook_success_roundtrip
      (WebhookProcessor.mk (InboundRegistry.new.with hookW)) "prov"
      [("h", "v")] [1, 2] hookW msgW rfl rfl rfl).1,
   (webhook_success_roundtrip
      (WebhookProcessor.mk (InboundRegistry.new.with hookW)) "prov"
      [("h", "v")] [1, 2] hookW msgW rfl rfl rfl).2.2⟩

end SmsKit

namespace SmsKit

lemma escapeQuotes_data (s : String) :
    (escapeQuotes s).data
      = (s.data.map (fun c => if c = '"' then ['\\', '"'] else [c])).join :=
  rfl

lemma psb_ctrl (s : List Char) (hnb : ('\\') ∉ s)
    (hc : ∃ c ∈ s, c.toNat < 32) (rest : List Char) :
    parseStringBody
        (((s.map (fun c => if c = '"' then ['\\', '"'] else [c])).join)
          ++ rest) = none := by
  induction s generalizing rest with
  | nil => simp at hc
  | cons c s ih =>
      have hnb' : ('\\') ∉ s := fun h => hnb (List.mem_cons_of_mem _ h)
      have hcne : c ≠ '\\' := fun h => hnb (h ▸ List.mem_cons_self _ _)
      by_cases hq : c = '"'
      · subst hq
        have hc' : ∃ c2 ∈ s, c2.toNat < 32 := by
          obtain ⟨c2, hmem, hlt⟩ := hc
          rcases List.mem_cons.mp hmem with rfl | hm
          · exact absurd hlt (by decide)
          · exact ⟨c2, hm, hlt⟩
        simp only [List.map_cons, if_pos, List.join_cons, List.cons_append,
          List.nil_append, List.append_assoc]
        rw [psb_esc '"' '"' rfl (by decide), ih hnb' hc']
        rfl
      · by_cases hctrl : c.toNat < 32
        · simp only [List.map_cons, if_neg hq, List.join_cons,
            List.cons_append, List.nil_append, List.append_assoc]
          rw [parseStringBody.eq_def]
          simp [hq, hcne, hctrl]
        · have hc' : ∃ c2 ∈ s, c2.toNat < 32 := by
            obtain ⟨c2, hmem, hlt⟩ := hc
            rcases List.mem_cons.mp hmem with rfl | hm
            · exact absurd hlt hctrl
            · exact ⟨c2, hm, hlt⟩
          simp only [List.map_cons, if_neg hq, List.join_cons,
            List.cons_append, List.nil_append, List.append_assoc]
          rw [psb_ord c hq hcne hctrl, ih hnb' hc']
          rfl

lemma errorBody_data (msg : String) :
    (errorBody msg).data
      = lbrace :: '"' :: 'e' :: 'r' :: 'r' :: 'o' :: 'r' :: '"' :: ':' :: ' '
        :: '"' :: ((escapeQuotes msg).data ++ ['"', rbrace]) := by
  show ("\x7b\"error\": \"" ++ escapeQuotes msg ++ "\"\x7d").data = _
  rw [String.data_append, String.data_append]
  rfl

lemma jsonParse_errorBody_ctrl (msg : String) (hnb : ('\\') ∉ msg.data)
    (hc : ∃ c ∈ msg.data, c.toNat < 32) :
    jsonParse (errorBody msg) = none := by
  unfold jsonParse
  rw [errorBody_data]
  have hlen : (lbrace :: '"' :: 'e' :: 'r' :: 'r' :: 'o' :: 'r' :: '"' :: ':'
      :: ' ' :: '"' :: ((escapeQuotes msg).data ++ ['"', rbrace])).length
      = (escapeQuotes msg).data.length + 13 := by
    simp
  rw [hlen]
  rw [parseValue.eq_def]
  rw [skipWs_cons _ _ (by decide)]
  simp +decide only [reduceIte]
  rw [skipWs_cons _ _ (by decide)]
  simp +decide only [reduceIte]
  rw [show (escapeQuotes msg).data.length + 13
    = ((escapeQuotes msg).data.length + 12) + 1 from by omega]
  rw [parseMembers_succ]
  rw [skipWs_cons _ _ (by decide)]
  simp +decide only [reduceIte]
  rw [show ('e' :: 'r' :: 'r' :: 'o' :: 'r' :: '"' :: (':' :: ' ' :: '"'
      :: ((escapeQuotes msg).data ++ ['"', rbrace])))
    = escapeString ['e', 'r', 'r', 'o', 'r']
      ++ '"' :: (':' :: ' ' :: '"' :: ((escapeQuotes msg).data
        ++ ['"', rbrace])) from rfl]
  rw [parseStringBody_escape]
  simp +decide only [skipWs, reduceIte]
  rw [show (escapeQuotes msg).data.length + 12
    = ((escapeQuotes msg).data.length + 11) + 1 from by omega]
  rw [parseValue.eq_def]
  simp +decide only [skipWs, reduceIte]
  rw [escapeQuotes_data, psb_ctrl msg.data hnb hc]
  rfl

end SmsKit

namespace SmsKit

lemma quote_escape_id (l : List Char) (h : ('"') ∉ l) :
    (l.map (fun c => if c = '"' then ['\\', '"'] else [c])).join = l := by
  induction l with
  | nil => rfl
  | cons c cs ih =>
      have hc : c ≠ '"' := fun hq => h (hq ▸ List.mem_cons_self _ _)
      have h' : ('"') ∉ cs := fun hm => h (List.mem_cons_of_mem _ hm)
      simp [if_neg hc, ih h']

/-- C10 counterexample: the two-character message backslash-`n` contains a
backslash, yet the error body built from it parses as JSON (the pair
becomes the valid string escape `\n`), contradicting the claim that a
message containing a backslash always produces a body that is not valid
JSON. -/
theorem error_body_backslash_counterexample :
    (('\\') ∈ (String.mk ['\\', 'n']).data)
    ∧ (jsonParse (errorBody (String.mk ['\\', 'n']))).isSome = true :=
  ⟨by decide, by decide⟩

/-- C10 (amended): the error response body is exactly the template
`{"error": "<m>"}` where `<m>` is the message with each double quote
replaced by `\"` and no other characters changed (quote-free messages pass
through untouched), and the `content_type` is always `application/json`;
consequently the body is not always valid JSON: a message containing a
control character and no backslash yields a body that fails JSON parsing,
as does a lone backslash — though some backslash-containing messages
(see the counterexample) still yield valid JSON. -/
theorem error_body_template :
    (∀ (status : HttpStatus) (msg : String),
      WebhookResponse.error status msg
        = ⟨status, "\x7b\"error\": \"" ++ escapeQuotes msg ++ "\"\x7d",
            "application/json"⟩)
    ∧ (∀ msg : String, ('"') ∉ msg.data → escapeQuotes msg = msg)
    ∧ (∀ msg : String, ('\\') ∉ msg.data → (∃ c ∈ msg.data, c.toNat < 32) →
        jsonParse (errorBody msg) = none)
    ∧ (jsonParse (errorBody (String.mk ['\\']))).isNone = true := by
  refine ⟨fun status msg => rfl, fun msg h => ?_,
    jsonParse_errorBody_ctrl, by decide⟩
  unfold escapeQuotes
  rw [quote_escape_id msg.data h, stringMk_data]

/-- Witness for `error_body_template`: a message holding a raw newline
(and no backslash) produces a body that is not valid JSON. -/
theorem error_body_template_witness :
    jsonParse (errorBody (String.mk ['a', '\n'])) = none :=
  error_body_template.2.2.1 (String.mk ['a', '\n']) (by decide)
    ⟨'\n', by decide, by decide⟩

end SmsKit
